import Mathlib

/-!
# Verification development for the gosql SQL template engine

Shallow embedding of the gosql template engine (package `gosql`): the AST
node model (`ast.go`), the nested-define lookup and the execution engine
(`findDefine`, `executionContext` and its `execute*` methods, `appendArg`,
`skipCurrentLine`, `isTruthy`, `evalCondition`, `GetSql`).

Go runtime values that can appear in a render scope are modelled by the
inductive `Value`.  The external expression evaluator (the `goscript2`
interpreter, an external collaborator of this repository) is modelled as a
function field of the environment `Env`, together with the host callables
reachable from a function block.  Machine integers are modelled as `Int`
(the engine never performs arithmetic that overflows in the claims below;
the only arithmetic, the for-loop post step, acts on small counters).

Execution is defined with an explicit fuel parameter: every recursive call
consumes one unit of fuel, so all definitions are structurally recursive
and executable.  Running out of fuel is an error, hence every theorem about
a *successful* execution is fuel-independent.
-/

namespace Gosql

/-- Go values visible to the engine.  `vInt` models the signed integer
kinds, `vStr` strings, `vSlice` non-nil slices and arrays, `vNilSlice` a
nil slice (kind Slice, length 0, reflect-zero), `vMap` a non-nil
string-keyed map, `vPtr` a pointer (carrying only its nil-ness, which is
all `isTruthy`/`evalCondition` inspect), `vStruct` a struct value carrying
only its reflect `IsZero` verdict, `vFunc` a host callable identified by an
index into the environment's callable tables together with its
reflect-signature class, and `vQueryRef` a `*Query` bound into the scope by
`executeFuncBlock`. -/
inductive Value where
  | vNil
  | vBool (b : Bool)
  | vInt (i : Int)
  | vStr (s : String)
  | vSlice (xs : List Value)
  | vNilSlice
  | vMap (entries : List (String × Value))
  | vPtr (isNil : Bool)
  | vStruct (isZero : Bool)
  | vFunc (fid : Nat) (tag : Nat)
  | vQueryRef (sql : String) (params : List Value)
  deriving Repr

/-- Signature class of a host callable, per the reflect checks in
`executeFuncBlock`: `funcTagQueryPtr` for `func(*Query) ...`,
`funcTagQueryVal` for `func(Query) ...`; any other signature falls through
to the expression path. -/
def funcTagQueryPtr : Nat := 0

/-- Signature class for `func(Query) ...`; see `funcTagQueryPtr`. -/
def funcTagQueryVal : Nat := 1

/-- `Query` from the source: rendered SQL text plus ordered parameters. -/
structure Query where
  SQL : String
  Params : List Value
  deriving Repr

/-- Possible (first) return value of a host callable invoked by
`executeFuncBlock`, per the type assertions in the source: a `string`, a
`Query`, a non-nil `*Query`, a nil `*Query`, or anything else (including
no return value at all), which the source ignores. -/
inductive FuncRet where
  | retNone
  | retStr (s : String)
  | retQuery (q : Query)
  | retQueryPtrNil
  | retQueryPtrSome (q : Query)
  deriving Repr

/-- AST node model from `ast.go`.  `ifN` carries the else-if list as
(condition, body) pairs and the optional else body; `useN` carries the
cover children as (name, body) pairs; `coverN` is a standalone cover node
(the parser can produce one, and `executeNode` rejects it). -/
inductive Node where
  | text (s : String)
  | varN (name : String) (conditional : Bool)
  | varExpr (expr : String) (conditional : Bool)
  | rawN (name : String) (conditional : Bool)
  | rawExpr (expr : String) (conditional : Bool)
  | condLine (condition : String) (lineNodes : List Node)
  | ifN (condition : String) (body : List Node)
      (elseIf : List (String × List Node)) (elseB : Option (List Node))
  | forN (expr : String) (body : List Node)
  | code (s : String)
  | useN (path : String) (covers : List (String × List Node))
  | defineN (name : String) (body : List Node)
  | coverN (name : String) (body : List Node)
  | funcBlock (funcExpr : String) (body : List Node)
  deriving Repr

/-- A variable scope / cover map: Go `map[string]...` modelled as an
association list where `lookupA` finds the binding and `setA` overwrites
in place. -/
def Assoc (α : Type) := List (String × α)

/-- Map lookup (`v, ok := m[k]`). -/
def lookupA {α : Type} : List (String × α) → String → Option α
  | [], _ => none
  | (k', v) :: rest, k => if k' = k then some v else lookupA rest k

/-- Map assignment (`m[k] = v`), overwriting any existing binding. -/
def setA {α : Type} : List (String × α) → String → α → List (String × α)
  | [], k, v => [(k, v)]
  | (k', v') :: rest, k, v =>
      if k' = k then (k, v) :: rest else (k', v') :: setA rest k v

/-- The render scope, `map[string]interface{}` in the source. -/
abbrev Scope := List (String × Value)

/- ### String helpers mirroring the Go `strings` functions used -/

/-- Whether a character is ASCII whitespace (the subset of
`unicode.IsSpace` exercised by templates). -/
def isSpaceChar (c : Char) : Bool :=
  c = ' ' || c = '\t' || c = '\n' || c = '\r'

/-- `strings.TrimSpace` on a char list. -/
def trimChars (cs : List Char) : List Char :=
  ((cs.dropWhile isSpaceChar).reverse.dropWhile isSpaceChar).reverse

/-- `strings.TrimSpace`. -/
def trimS (s : String) : String := (trimChars s.toList).asString

/-- `strings.HasPrefix` on char lists. -/
def startsWith : List Char → List Char → Bool
  | [], _ => true
  | _ :: _, [] => false
  | p :: ps, c :: cs => p = c && startsWith ps cs

/-- `strings.Contains` on char lists (substring containment). -/
def containsSub : List Char → List Char → Bool
  | pat, [] => startsWith pat []
  | pat, c :: cs => startsWith pat (c :: cs) || containsSub pat cs

/-- `strings.Contains s pat`. -/
def containsS (s pat : String) : Bool := containsSub pat.toList s.toList

/-- `strings.HasSuffix s suf`. -/
def hasSuffixS (s suf : String) : Bool :=
  startsWith suf.toList.reverse s.toList.reverse

/-- `strings.TrimSuffix s suf` (drops one occurrence when present). -/
def trimSuffixS (s suf : String) : String :=
  if hasSuffixS s suf then
    (s.toList.take (s.toList.length - suf.toList.length)).asString
  else s

/-- `strings.TrimPrefix s pre` (drops one occurrence when present). -/
def trimPrefixOfS (s pre : String) : String :=
  if startsWith pre.toList s.toList then
    (s.toList.drop pre.toList.length).asString
  else s

/-- `strings.Split` with a one-character separator, on char lists. -/
def splitOnCharAux (sep : Char) : List Char → List Char → List String
  | [], acc => [acc.reverse.asString]
  | c :: cs, acc =>
      if c = sep then acc.reverse.asString :: splitOnCharAux sep cs []
      else splitOnCharAux sep cs (c :: acc)

/-- `strings.Split s (String.singleton sep)`. -/
def splitOnChar (s : String) (sep : Char) : List String :=
  splitOnCharAux sep s.toList []

/-- First occurrence split: `strings.SplitN s sep 2` when `sep` occurs,
returning the pieces before and after the separator. -/
def splitOnceSubAux (sep : List Char) : List Char → List Char →
    Option (String × String)
  | [], _ => none
  | c :: cs, acc =>
      if startsWith sep (c :: cs) then
        some (acc.reverse.asString, ((c :: cs).drop sep.length).asString)
      else splitOnceSubAux sep cs (c :: acc)

/-- `strings.SplitN s sep 2`: `some (before, after)` at the first
occurrence of `sep`, `none` when `sep` does not occur. -/
def splitOnceSub (s sep : String) : Option (String × String) :=
  splitOnceSubAux sep.toList s.toList []

/-- `strings.LastIndex s sub` for a one-character `sub`, as an index into
the char list, `-1` when absent (Go convention). -/
def lastIndexCharAux (c : Char) : List Char → Int → Int → Int
  | [], _, acc => acc
  | x :: xs, i, acc =>
      lastIndexCharAux c xs (i + 1) (if x = c then i else acc)

/-- `strings.LastIndex s (String.singleton c)`. -/
def lastIndexChar (s : String) (c : Char) : Int :=
  lastIndexCharAux c s.toList 0 (-1)

/- ### Small engine helpers -/

/-- Count of `?` characters in a rendered SQL text (the `?`-shaped
placeholders of the `Query` invariant). -/
def countQ (s : String) : Nat := s.toList.count '?'

/-- `isTruthy` from the source: nil and boolean false are falsy, numeric
kinds by comparison with zero, strings by emptiness, slice/array/map by
length, pointers/interfaces by nil-ness, and every other kind (structs,
funcs, ...) takes the `default: true` branch. -/
def isTruthy : Value → Bool
  | .vNil => false
  | .vBool b => b
  | .vInt i => i != 0
  | .vStr s => s != ""
  | .vSlice xs => xs.length > 0
  | .vNilSlice => false
  | .vMap entries => entries.length > 0
  | .vPtr isNil => !isNil
  | .vStruct _ => true
  | .vFunc _ _ => true
  | .vQueryRef _ _ => true

/-- The bool conversion inside `evalCondition`: a type switch on concrete
types (`bool`, the int/uint/float kinds, `string`, `nil`), with
`default: !reflect.ValueOf(v).IsZero()` — so a slice, map, pointer or
struct is truthy here iff it is not the reflect zero value of its type
(a non-nil empty slice is truthy, a zero struct is falsy). -/
def toCondBool : Value → Bool
  | .vBool b => b
  | .vInt i => i != 0
  | .vStr s => s != ""
  | .vNil => false
  | .vSlice _ => true
  | .vNilSlice => false
  | .vMap _ => true
  | .vPtr isNil => !isNil
  | .vStruct isZero => !isZero
  | .vFunc _ _ => true
  | .vQueryRef _ _ => true

/-- `skipCurrentLine` from the source: truncate the SQL buffer back to
just after the last `"\n"`, or empty it when no newline was written. -/
def skipCurrentLineS (sql : String) : String :=
  let idx := lastIndexChar sql '\n'
  if idx ≥ 0 then (sql.toList.take (idx.toNat + 1)).asString
  else ""

mutual

/-- `fmt.Sprintf("%v", value)` on the modelled value forms (used by the
raw-output nodes; only the forms below can reach a template in the claims
considered). -/
def fmtV : Value → String
  | .vNil => "<nil>"
  | .vBool b => if b then "true" else "false"
  | .vInt i => toString i
  | .vStr s => s
  | .vSlice xs => "[" ++ fmtVList xs ++ "]"
  | .vNilSlice => "[]"
  | .vMap _ => "map[...]"
  | .vPtr _ => "<ptr>"
  | .vStruct _ => "\x7b...\x7d"
  | .vFunc _ _ => "<func>"
  | .vQueryRef s _ => "&\x7b" ++ s ++ "\x7d"

/-- Space-separated element rendering inside `fmtV` of a slice. -/
def fmtVList : List Value → String
  | [] => ""
  | [v] => fmtV v
  | v :: rest => fmtV v ++ " " ++ fmtVList rest

end

/-- The mutable per-render state of `executionContext` that the claims
observe: the scope, the SQL builder, the ordered parameter list and the
active cover map.  (The engine pointer, interpreter handle, cached type
info and the never-used line-buffer fields of the source struct carry no
behaviour in the executed code and are not modelled.) -/
structure Ctx where
  scope : Scope
  sql : String
  args : List Value
  covers : List (String × List Node)
  deriving Repr

/-- The loop body of `appendArg` for slice/array values: one `?` per
element, separated by `", "` for every element after the first, pushing
each element in order. -/
def appendArgLoop : Ctx → Bool → List Value → Ctx
  | ctx, _, [] => ctx
  | ctx, first, v :: rest =>
      appendArgLoop
        { ctx with
            sql := ctx.sql ++ (if first then "?" else ", ?"),
            args := ctx.args ++ [v] }
        false rest

/-- `appendArg` from the source: slices/arrays are expanded element-wise
(`N` placeholders joined by `", "`, `N` params); every other value appends
one `?` and one param. -/
def appendArg (ctx : Ctx) (v : Value) : Ctx :=
  match v with
  | .vSlice xs => appendArgLoop ctx true xs
  | .vNilSlice => ctx
  | _ => { ctx with sql := ctx.sql ++ "?", args := ctx.args ++ [v] }

/-- `executeVarNode`: scope lookup; a conditional node whose value is
absent or falsy rolls the current line back and pushes nothing; a
non-conditional node with an absent name is a fatal error; otherwise the
value is appended via `appendArg`. -/
def executeVarNode (ctx : Ctx) (name : String) (conditional : Bool) :
    Except String Ctx :=
  match lookupA ctx.scope name with
  | some v =>
      if conditional ∧ ¬ isTruthy v then
        .ok { ctx with sql := skipCurrentLineS ctx.sql }
      else
        .ok (appendArg ctx v)
  | none =>
      if conditional then
        .ok { ctx with sql := skipCurrentLineS ctx.sql }
      else
        .error ("variable not found: " ++ name)

/-- `executeRawNode`: like `executeVarNode` but the value's `%v` text is
written directly, with no placeholder and no parameter. -/
def executeRawNode (ctx : Ctx) (name : String) (conditional : Bool) :
    Except String Ctx :=
  match lookupA ctx.scope name with
  | some v =>
      if conditional ∧ ¬ isTruthy v then
        .ok { ctx with sql := skipCurrentLineS ctx.sql }
      else
        .ok { ctx with sql := ctx.sql ++ fmtV v }
  | none =>
      if conditional then
        .ok { ctx with sql := skipCurrentLineS ctx.sql }
      else
        .error ("variable not found: " ++ name)

mutual

/-- `findDefine` from the source: scan the node list in order; a define
node is returned when its name equals the searched name *as a whole
string*, else its body is searched recursively; if/for nodes have their
bodies (and else-if/else branches) searched; all other nodes are passed
over. -/
def findDefine : List Node → String → Option (String × List Node)
  | [], _ => none
  | n :: rest, name =>
      match findDefineNode n name with
      | some d => some d
      | none => findDefine rest name

/-- The per-node case of `findDefine`'s type switch. -/
def findDefineNode : Node → String → Option (String × List Node)
  | .defineN nm body, name =>
      if nm = name then some (nm, body) else findDefine body name
  | .ifN _ body elseIf elseB, name =>
      match findDefine body name with
      | some d => some d
      | none =>
          match findDefineElseIf elseIf name with
          | some d => some d
          | none =>
              match elseB with
              | some eb => findDefine eb name
              | none => none
  | .forN _ body, name => findDefine body name
  | _, _ => none

/-- `findDefine` descent through the else-if clauses of an if node. -/
def findDefineElseIf : List (String × List Node) → String →
    Option (String × List Node)
  | [], _ => none
  | (_, body) :: rest, name =>
      match findDefine body name with
      | some d => some d
      | none => findDefineElseIf rest name

end

/-- The render environment: the engine's compiled templates
(`compiledAST`, keyed by `"namespace.name"`) and the external
collaborators — the `goscript2` expression evaluator
(`EvalExprWithArgs`), the raw-code runner of `executeCode`, and the two
host-callable tables indexed by a `vFunc`'s id (`callPtr` for
`func(*Query)`-shaped callables, returning the mutated query and the
optional first return value; `callVal` for `func(Query)`-shaped ones). -/
structure Env where
  templates : List (String × List Node)
  eval : String → Scope → Except String Value
  runCode : String → Scope → Except String Unit
  callPtr : Nat → Query → Query × FuncRet
  callVal : Nat → Query → FuncRet

/-- `evalCondition`: evaluate the expression, wrap evaluator failure in a
`condition error:` message, and convert the result with the type switch
modelled by `toCondBool`. -/
def evalCondition (env : Env) (condition : String) (scope : Scope) :
    Except String Bool :=
  match env.eval condition scope with
  | .error e => .error ("condition error: " ++ e)
  | .ok v => .ok (toCondBool v)

/-- `executeVarExprNode`: evaluate the expression (failure is fatal even
for a conditional node); a conditional node with a falsy value rolls the
line back, otherwise the value is appended via `appendArg`. -/
def executeVarExprNode (env : Env) (ctx : Ctx) (expr : String)
    (conditional : Bool) : Except String Ctx :=
  match env.eval expr ctx.scope with
  | .error e => .error e
  | .ok v =>
      if conditional ∧ ¬ isTruthy v then
        .ok { ctx with sql := skipCurrentLineS ctx.sql }
      else
        .ok (appendArg ctx v)

/-- `executeRawExprNode`: like `executeVarExprNode` but writes the `%v`
text directly with no parameter. -/
def executeRawExprNode (env : Env) (ctx : Ctx) (expr : String)
    (conditional : Bool) : Except String Ctx :=
  match env.eval expr ctx.scope with
  | .error e => .error e
  | .ok v =>
      if conditional ∧ ¬ isTruthy v then
        .ok { ctx with sql := skipCurrentLineS ctx.sql }
      else
        .ok { ctx with sql := ctx.sql ++ fmtV v }

/-- `executePost`: the for-loop post step.  `x++`/`x--` increment or
decrement an `int`-valued binding in place (silently doing nothing for a
missing or non-`int` binding); `x += e` evaluates `e` and adds when both
sides are `int`s (evaluator failure is fatal); anything else is silently
ignored. -/
def executePost (env : Env) (ctx : Ctx) (varName postPart : String) :
    Except String Ctx :=
  let _ := varName
  let post := trimS postPart
  if hasSuffixS post "++" then
    let vName := trimS (trimSuffixS post "++")
    match lookupA ctx.scope vName with
    | some (.vInt i) => .ok { ctx with scope := setA ctx.scope vName (.vInt (i + 1)) }
    | _ => .ok ctx
  else if hasSuffixS post "--" then
    let vName := trimS (trimSuffixS post "--")
    match lookupA ctx.scope vName with
    | some (.vInt i) => .ok { ctx with scope := setA ctx.scope vName (.vInt (i - 1)) }
    | _ => .ok ctx
  else if containsS post "+=" then
    match splitOnceSub post "+=" with
    | some (l, r) =>
        let vName := trimS l
        match env.eval (trimS r) ctx.scope with
        | .error e => .error e
        | .ok addValue =>
            match lookupA ctx.scope vName, addValue with
            | some (.vInt i), .vInt a =>
                .ok { ctx with scope := setA ctx.scope vName (.vInt (i + a)) }
            | _, _ => .ok ctx
    | none => .ok ctx
  else
    .ok ctx

/-- The `(` / `)` string surgery of `executeFuncBlock` that injects the
`__query__` argument into the callable expression before handing it to the
evaluator. -/
def injectQueryArg (funcExpr : String) : String :=
  if containsS funcExpr "(" then
    let cs := funcExpr.toList
    let lastParen := lastIndexChar funcExpr ')'
    if lastParen > 0 then
      let headPart := (cs.take lastParen.toNat).asString
      let openParen := lastIndexChar headPart '('
      if openParen ≥ 0 then
        let between :=
          trimS ((cs.take lastParen.toNat).drop (openParen.toNat + 1)).asString
        if between = "" then
          (cs.take (openParen.toNat + 1)).asString ++ "__query__" ++
            (cs.drop lastParen.toNat).asString
        else
          (cs.take lastParen.toNat).asString ++ ", __query__" ++
            (cs.drop lastParen.toNat).asString
      else funcExpr
    else funcExpr
  else
    funcExpr ++ "(__query__)"

/-- Application of a callable's first return value to the query, per the
type assertions of `executeFuncBlock`'s `func(*Query)` path: a `string`
replaces the SQL, a `Query` replaces the whole query, a non-nil `*Query`
is adopted, everything else leaves the (possibly mutated) query as is. -/
def applyRetPtr (q : Query) (r : FuncRet) : Query :=
  match r with
  | .retStr s => { q with SQL := s }
  | .retQuery q' => q'
  | .retQueryPtrSome q' => q'
  | _ => q

/-- Same for the legacy `func(Query)` path, which only tests for `string`
and `Query` return values. -/
def applyRetVal (q : Query) (r : FuncRet) : Query :=
  match r with
  | .retStr s => { q with SQL := s }
  | .retQuery q' => q'
  | _ => q

/-- The fresh cover map `executeUse` builds from a use node's cover
children (`ctx.covers[cover.Name] = cover.Body` in a loop; later
duplicates overwrite earlier ones, as Go map assignment does). -/
def buildCovers (covers : List (String × List Node)) :
    List (String × List Node) :=
  covers.foldl (fun m c => setA m c.1 c.2) []

/-- The expression route of `executeFuncBlock`: bind `__query__` into the
scope (a write that persists after the block), inject it into the call
text, and evaluate.  On evaluator failure the block degrades to the
sub-render's own text and parameters; on success the returned value is
applied as a replacement (`string` / `*Query`; interpreter-side mutation
of the bound query is outside the pure model and not needed by the claims,
which concern the failure path). -/
def executeFuncBlockExpr (env : Env) (ctx₁ sub : Ctx) (fe : String)
    (query : Query) : Except String Ctx :=
  let funcExpr := injectQueryArg fe
  let scope' := setA ctx₁.scope "__query__" (.vQueryRef query.SQL query.Params)
  let ctx₂ := { ctx₁ with scope := scope' }
  match env.eval funcExpr scope' with
  | .error _ =>
      .ok { ctx₂ with sql := ctx₂.sql ++ sub.sql, args := ctx₂.args ++ sub.args }
  | .ok result =>
      let final :=
        match result with
        | .vStr s => { query with SQL := s }
        | .vQueryRef s p => ⟨s, p⟩
        | _ => query
      .ok { ctx₂ with sql := ctx₂.sql ++ final.SQL,
                      args := ctx₂.args ++ final.Params }

mutual

/-- `executeNodes`: execute a node list in order, stopping at the first
error.  The first argument is fuel; every recursive call of the engine
consumes one unit, so the definitions are total, and running out of fuel
is an error (hence never part of a successful render). -/
def executeNodes : Nat → Env → Ctx → List Node → Except String Ctx
  | 0, _, _, _ => .error "out of fuel"
  | _ + 1, _, ctx, [] => .ok ctx
  | fuel + 1, env, ctx, n :: rest =>
      match executeNode fuel env ctx n with
      | .error e => .error e
      | .ok ctx' => executeNodes fuel env ctx' rest

/-- `executeNode`: the type switch over node kinds.  A standalone cover
node falls into the source's `default` branch (`unknown node type`). -/
def executeNode : Nat → Env → Ctx → Node → Except String Ctx
  | 0, _, _, _ => .error "out of fuel"
  | fuel + 1, env, ctx, n =>
      match n with
      | .text s => .ok { ctx with sql := ctx.sql ++ s }
      | .varN name conditional => executeVarNode ctx name conditional
      | .varExpr expr conditional => executeVarExprNode env ctx expr conditional
      | .rawN name conditional => executeRawNode ctx name conditional
      | .rawExpr expr conditional => executeRawExprNode env ctx expr conditional
      | .ifN condition body elseIf elseB =>
          executeIf fuel env ctx condition body elseIf elseB
      | .forN expr body => executeFor fuel env ctx expr body
      | .code c =>
          match env.runCode c ctx.scope with
          | .error e => .error e
          | .ok _ => .ok ctx
      | .useN path covers => executeUse fuel env ctx path covers
      | .defineN name body => executeDefine fuel env ctx name body
      | .condLine condition lineNodes =>
          executeConditionalLine fuel env ctx condition lineNodes
      | .funcBlock funcExpr body => executeFuncBlock fuel env ctx funcExpr body
      | .coverN _ _ => .error "unknown node type"

/-- `executeConditionalLine`: evaluate the condition; when falsy the whole
line is skipped, otherwise its nodes are executed. -/
def executeConditionalLine : Nat → Env → Ctx → String → List Node →
    Except String Ctx
  | 0, _, _, _, _ => .error "out of fuel"
  | fuel + 1, env, ctx, condition, lineNodes =>
      match evalCondition env condition ctx.scope with
      | .error e => .error e
      | .ok false => .ok ctx
      | .ok true => executeNodes fuel env ctx lineNodes

/-- `executeIf`: evaluate the condition, then the else-if chain in order,
then the else branch. -/
def executeIf : Nat → Env → Ctx → String → List Node →
    List (String × List Node) → Option (List Node) → Except String Ctx
  | 0, _, _, _, _, _, _ => .error "out of fuel"
  | fuel + 1, env, ctx, condition, body, elseIf, elseB =>
      match evalCondition env condition ctx.scope with
      | .error e => .error e
      | .ok true => executeNodes fuel env ctx body
      | .ok false => executeElseIfChain fuel env ctx elseIf elseB

/-- The else-if loop of `executeIf`, falling through to the else body. -/
def executeElseIfChain : Nat → Env → Ctx → List (String × List Node) →
    Option (List Node) → Except String Ctx
  | 0, _, _, _, _ => .error "out of fuel"
  | fuel + 1, env, ctx, [], elseB =>
      match elseB with
      | some eb => executeNodes fuel env ctx eb
      | none => .ok ctx
  | fuel + 1, env, ctx, (cond, body) :: rest, elseB =>
      match evalCondition env cond ctx.scope with
      | .error e => .error e
      | .ok true => executeNodes fuel env ctx body
      | .ok false => executeElseIfChain fuel env ctx rest elseB

/-- `executeFor`: dispatch on whether the clause text contains `"range"`
(substring test, as in the source). -/
def executeFor : Nat → Env → Ctx → String → List Node → Except String Ctx
  | 0, _, _, _, _ => .error "out of fuel"
  | fuel + 1, env, ctx, expr, body =>
      let e := trimS expr
      if containsS e "range" then executeForRange fuel env ctx e body
      else executeForTraditional fuel env ctx e body

/-- `executeForRange`: split on `":="`, parse the bound names, evaluate
the range expression; slices/arrays iterate `(index, element)` in order,
maps iterate `(key, value)`, anything else is a fatal error.  A bound name
that is empty or `"_"` is not written to the scope. -/
def executeForRange : Nat → Env → Ctx → String → List Node →
    Except String Ctx
  | 0, _, _, _, _ => .error "out of fuel"
  | fuel + 1, env, ctx, expr, body =>
      match splitOnceSub expr ":=" with
      | none => .error ("invalid range expression: " ++ expr)
      | some (varPart, rest) =>
          let rangePart := trimS (trimPrefixOfS (trimS rest) "range")
          let varNames := splitOnChar (trimS varPart) ','
          let indexVar := trimS (varNames.headD "")
          let valueVar := trimS ((varNames.drop 1).headD "")
          match env.eval rangePart ctx.scope with
          | .error e => .error ("range expression error: " ++ e)
          | .ok rv =>
              match rv with
              | .vSlice xs =>
                  executeForRangeSlice fuel env ctx indexVar valueVar 0 xs body
              | .vNilSlice => .ok ctx
              | .vMap entries =>
                  executeForRangeMap fuel env ctx indexVar valueVar entries body
              | _ => .error "cannot range over value"

/-- The slice/array iteration of `executeForRange`. -/
def executeForRangeSlice : Nat → Env → Ctx → String → String → Int →
    List Value → List Node → Except String Ctx
  | 0, _, _, _, _, _, _, _ => .error "out of fuel"
  | _ + 1, _, ctx, _, _, _, [], _ => .ok ctx
  | fuel + 1, env, ctx, indexVar, valueVar, i, x :: xs, body =>
      let scope₁ :=
        if indexVar ≠ "" ∧ indexVar ≠ "_" then setA ctx.scope indexVar (.vInt i)
        else ctx.scope
      let scope₂ :=
        if valueVar ≠ "" ∧ valueVar ≠ "_" then setA scope₁ valueVar x
        else scope₁
      match executeNodes fuel env { ctx with scope := scope₂ } body with
      | .error e => .error e
      | .ok ctx' =>
          executeForRangeSlice fuel env ctx' indexVar valueVar (i + 1) xs body

/-- The map iteration of `executeForRange` (string-keyed maps; iteration
order is the entry order of the modelled map). -/
def executeForRangeMap : Nat → Env → Ctx → String → String →
    List (String × Value) → List Node → Except String Ctx
  | 0, _, _, _, _, _, _ => .error "out of fuel"
  | _ + 1, _, ctx, _, _, [], _ => .ok ctx
  | fuel + 1, env, ctx, indexVar, valueVar, (k, v) :: rest, body =>
      let scope₁ :=
        if indexVar ≠ "" ∧ indexVar ≠ "_" then setA ctx.scope indexVar (.vStr k)
        else ctx.scope
      let scope₂ :=
        if valueVar ≠ "" ∧ valueVar ≠ "_" then setA scope₁ valueVar v
        else scope₁
      match executeNodes fuel env { ctx with scope := scope₂ } body with
      | .error e => .error e
      | .ok ctx' => executeForRangeMap fuel env ctx' indexVar valueVar rest body

/-- `executeForTraditional`: require exactly three `;`-separated clauses;
when the init clause contains `":="`, evaluate its right-hand side, bind
the induction variable, and enter the condition/body/post loop.  An init
clause without `":="` silently does nothing (as in the source). -/
def executeForTraditional : Nat → Env → Ctx → String → List Node →
    Except String Ctx
  | 0, _, _, _, _ => .error "out of fuel"
  | fuel + 1, env, ctx, expr, body =>
      match splitOnChar expr ';' with
      | [initPart, condPart, postPart] =>
          let ip := trimS initPart
          let cp := trimS condPart
          let pp := trimS postPart
          if containsS ip ":=" then
            match splitOnceSub ip ":=" with
            | none => .ok ctx
            | some (l, r) =>
                let varName := trimS l
                match env.eval (trimS r) ctx.scope with
                | .error e => .error ("for init error: " ++ e)
                | .ok initValue =>
                    executeForLoop fuel env
                      { ctx with scope := setA ctx.scope varName initValue }
                      varName cp pp body
          else
            .ok ctx
      | _ => .error ("invalid for expression: " ++ expr)

/-- The condition/body/post loop of `executeForTraditional`. -/
def executeForLoop : Nat → Env → Ctx → String → String → String →
    List Node → Except String Ctx
  | 0, _, _, _, _, _, _ => .error "out of fuel"
  | fuel + 1, env, ctx, varName, condPart, postPart, body =>
      match evalCondition env condPart ctx.scope with
      | .error e => .error ("for condition error: " ++ e)
      | .ok false => .ok ctx
      | .ok true =>
          match executeNodes fuel env ctx body with
          | .error e => .error e
          | .ok ctx' =>
              match executePost env ctx' varName postPart with
              | .error e => .error e
              | .ok ctx'' =>
                  executeForLoop fuel env ctx'' varName condPart postPart body

/-- `executeUse`: parse the dotted path, look up the target template,
save the current cover map and install a fresh one built from the use's
cover children, execute the target (the whole template, or the define
block named by the third path segment, which must exist), then restore the
saved cover map. -/
def executeUse : Nat → Env → Ctx → String → List (String × List Node) →
    Except String Ctx
  | 0, _, _, _, _ => .error "out of fuel"
  | fuel + 1, env, ctx, path, covers =>
      match splitOnChar path '.' with
      | namespaceP :: name :: restParts =>
          let defineName := restParts.headD ""
          let key := namespaceP ++ "." ++ name
          match lookupA env.templates key with
          | none => .error ("template not found: " ++ key)
          | some astNodes =>
              let oldCovers := ctx.covers
              let ctx₁ := { ctx with covers := buildCovers covers }
              if defineName ≠ "" then
                match findDefine astNodes defineName with
                | none =>
                    .error ("define not found: " ++ defineName ++
                      " in template " ++ key)
                | some (_, defBody) =>
                    match executeNodes fuel env ctx₁ defBody with
                    | .error e => .error e
                    | .ok ctx₂ => .ok { ctx₂ with covers := oldCovers }
              else
                match executeNodes fuel env ctx₁ astNodes with
                | .error e => .error e
                | .ok ctx₂ => .ok { ctx₂ with covers := oldCovers }
      | _ => .error ("invalid use path: " ++ path)

/-- `executeDefine`: when the active cover map has an override registered
under this define's exact name, execute the override body, else the
define's own body. -/
def executeDefine : Nat → Env → Ctx → String → List Node →
    Except String Ctx
  | 0, _, _, _, _ => .error "out of fuel"
  | fuel + 1, env, ctx, name, body =>
      match lookupA ctx.covers name with
      | some coverBody => executeNodes fuel env ctx coverBody
      | none => executeNodes fuel env ctx body

/-- `executeFuncBlock`: render the body in a sub-context sharing the scope
and cover map but with a fresh SQL buffer and parameter list; then try the
callable.  A scope entry whose reflect type is `func(*Query) ...` or
`func(Query) ...` is called directly and its result applied; any other
scope value (or none) falls through to the expression route, which binds
`__query__` into the scope, injects it into the call text, and asks the
evaluator.  Evaluator failure is absorbed: the sub-render's own text and
parameters are appended unchanged. -/
def executeFuncBlock : Nat → Env → Ctx → String → List Node →
    Except String Ctx
  | 0, _, _, _, _ => .error "out of fuel"
  | fuel + 1, env, ctx, funcExpr, body =>
      let subInit : Ctx :=
        { scope := ctx.scope, sql := "", args := [], covers := ctx.covers }
      match executeNodes fuel env subInit body with
      | .error e => .error e
      | .ok sub =>
          -- the sub-context shares the parent's scope map and cover map
          let ctx₁ : Ctx := { ctx with scope := sub.scope, covers := sub.covers }
          let query : Query := ⟨sub.sql, sub.args⟩
          let fe := trimS funcExpr
          match lookupA ctx₁.scope fe with
          | some (Value.vFunc fid tag) =>
              if tag = funcTagQueryPtr then
                let (mutated, ret) := env.callPtr fid query
                let final := applyRetPtr mutated ret
                .ok { ctx₁ with sql := ctx₁.sql ++ final.SQL,
                                args := ctx₁.args ++ final.Params }
              else if tag = funcTagQueryVal then
                let ret := env.callVal fid query
                let final := applyRetVal query ret
                .ok { ctx₁ with sql := ctx₁.sql ++ final.SQL,
                                args := ctx₁.args ++ final.Params }
              else
                executeFuncBlockExpr env ctx₁ sub fe query
          | _ => executeFuncBlockExpr env ctx₁ sub fe query

end

/-- `GetSql` from the source: parse the dotted path (at least two
segments), look up the compiled template, create a fresh execution context
over the caller's initial scope (the argument binder and the engine's
registered functions are external collaborators, so the flattened scope is
taken as the input), optionally restrict execution to the define block
named by the third path segment, and return the rendered `Query`. -/
def GetSql (env : Env) (fuel : Nat) (path : String) (initScope : Scope) :
    Except String Query :=
  match splitOnChar path '.' with
  | namespaceP :: name :: restParts =>
      let defineName := restParts.headD ""
      let key := namespaceP ++ "." ++ name
      match lookupA env.templates key with
      | none => .error ("template not found: " ++ key)
      | some astNodes =>
          let ctx : Ctx := { scope := initScope, sql := "", args := [], covers := [] }
          if defineName ≠ "" then
            match findDefine astNodes defineName with
            | none =>
                .error ("define not found: " ++ defineName ++
                  " in template " ++ key)
            | some (_, defBody) =>
                match executeNodes fuel env ctx defBody with
                | .error e => .error e
                | .ok ctx' => .ok ⟨ctx'.sql, ctx'.args⟩
          else
            match executeNodes fuel env ctx astNodes with
            | .error e => .error e
            | .ok ctx' => .ok ⟨ctx'.sql, ctx'.args⟩
  | _ => .error ("invalid path: " ++ path ++ ", expected format: namespace.name")

/- ### Modelled external collaborators and concrete test fixtures

The expression evaluator is an external collaborator of this repository
(the `goscript2` interpreter); the engine only consumes its
`evaluate(expressionText, scope) → value | error` contract.  `miniEval`
instantiates that contract on the fragment the concrete scenarios below
use: integer literals, `x < y` comparisons of integer atoms, and plain
variable lookup. -/

/-- ASCII digit test. -/
def digitChar (c : Char) : Bool := '0' ≤ c && c ≤ '9'

/-- Decimal digits to a number. -/
def digitsToNat : List Char → Nat → Nat
  | [], acc => acc
  | c :: cs, acc => digitsToNat cs (acc * 10 + (c.toNat - '0'.toNat))

/-- Parse a non-negative integer literal. -/
def parseIntS (s : String) : Option Int :=
  if s ≠ "" ∧ s.toList.all digitChar then some (digitsToNat s.toList 0)
  else none

/-- An atom of `miniEval`: an integer literal or an integer-valued
variable. -/
def miniAtom (scope : Scope) (s : String) : Option Int :=
  match parseIntS s with
  | some n => some n
  | none =>
      match lookupA scope s with
      | some (.vInt i) => some i
      | _ => none

/-- A concrete instance of the external expression-evaluator contract,
sufficient for the scenarios below: integer literals, `a < b` on integer
atoms, and plain variable lookup. -/
def miniEval (expr : String) (scope : Scope) : Except String Value :=
  match parseIntS expr with
  | some n => .ok (.vInt n)
  | none =>
      match splitOnceSub expr " < " with
      | some (l, r) =>
          match miniAtom scope (trimS l), miniAtom scope (trimS r) with
          | some a, some b => .ok (.vBool (decide (a < b)))
          | _, _ => .error ("cannot eval " ++ expr)
      | none =>
          match lookupA scope expr with
          | some v => .ok v
          | none => .error ("undefined: " ++ expr)

/-- An environment with no templates whose evaluator is `miniEval` and
whose callables do nothing. -/
def miniEnv : Env :=
  { templates := [], eval := miniEval, runCode := fun _ _ => .ok (),
    callPtr := fun _ q => (q, .retNone), callVal := fun _ _ => .retNone }

/-- An environment whose external collaborators all fail: the evaluator
and the code runner reject everything (used to exercise the failure
paths). -/
def failEnv : Env :=
  { templates := [], eval := fun _ _ => .error "eval failed",
    runCode := fun _ _ => .error "code failed",
    callPtr := fun _ q => (q, .retNone), callVal := fun _ _ => .retNone }

/-- Fixture: a template mixing a non-conditional and a conditional
placeholder on one output line (`where a=@a and b=@b?`). -/
def envMixedLine : Env :=
  { miniEnv with templates :=
      [("t.q", [.text "where a=", .varN "a" false, .text " and b=",
                .varN "b" true])] }

/-- Fixture for the nested-cover scenario of `TestNestedDefineOverride`:
`test.sql7_5` holds `@define abc { ... @define d { ... } }`, `test.sql8`
uses it with `@cover abc.d { d block changed }`, and `test.sql8_2` with
`@cover abc { abc block changed }`. -/
def envNestedCover : Env :=
  { miniEnv with templates :=
      [("test.sql7_5",
        [.text "pre\n===\n\n",
         .defineN "abc"
           [.text "\n    and id = ", .varN "id" false, .text "\n    ",
            .defineN "d" [.text "this is d block"]]]),
       ("test.sql8",
        [.useN "test.sql7_5" [("abc.d", [.text "d block changed"])]]),
       ("test.sql8_2",
        [.useN "test.sql7_5" [("abc", [.text "abc block changed"])]])] }

/-- Fixture: a conditional placeholder line in the middle of a template
(`a⏎and col = @x?⏎b`) and one at the very end (`a⏎and col = @x?`). -/
def envCondLine : Env :=
  { miniEnv with templates :=
      [("t.mid", [.text "a\nand col = ", .varN "x" true, .text "\nb"]),
       ("t.tail", [.text "a\nand col = ", .varN "x" true])] }

/-- Fixture: nested defines for the `findDefine` lookup scenario
(`@define a { sib @define b { inner } }`). -/
def nestedDefNodes : List Node :=
  [.defineN "a" [.text "sib", .defineN "b" [.text "inner"]]]

/-- Fixture: a template whose only placeholder is a required variable. -/
def envMissingVar : Env :=
  { miniEnv with templates :=
      [("t.m", [.text "select * from t where id = ", .varN "id" false])] }

/-- Fixture: a collection-valued placeholder. -/
def envCollection : Env :=
  { miniEnv with templates :=
      [("t.e", [.text "select * from t where id in (", .varN "ids" false,
                .text ")"])] }

/-- Fixture: a base template with a define block, for the use/cover
scoping scenario. -/
def envUseBase : Env :=
  { miniEnv with templates :=
      [("t.base", [.text "B:", .defineN "blk" [.text "orig"]])] }

/- ### Derived/spec-side definitions used to state the claims -/

/-- The `?`-markers a placeholder value contributes, as produced by the
`appendArg` loop: `qmarksF true n` for an `n`-element expansion
(`"?", "?, ?", ...`), `qmarksF false n` when a previous element already
wrote the first marker. -/
def qmarksF : Bool → Nat → String
  | _, 0 => ""
  | true, n + 1 => "?" ++ qmarksF false n
  | false, n + 1 => ", ?" ++ qmarksF false n

/-- The parameter elements a placeholder value contributes: a slice or
array contributes its elements, everything else itself. -/
def argElems : Value → List Value
  | .vSlice xs => xs
  | .vNilSlice => []
  | v => [v]

/-- Restatement of the spec's falsy set for the conditional-placeholder
skip test, written from the spec's words (`nil/absent, boolean false,
numeric zero, empty string, and empty collection are falsy; everything
else ... is truthy`), with the zero-struct case following the code's
`default: true` branch. -/
def skipFalsySpec : Value → Bool
  | .vNil => true
  | .vBool b => !b
  | .vInt i => i == 0
  | .vStr s => s == ""
  | .vSlice xs => xs.isEmpty
  | .vNilSlice => true
  | .vMap entries => entries.isEmpty
  | .vPtr isNil => isNil
  | _ => false

/-- The reflect `IsZero` verdict of a modelled value (used by the
condition conversion's `default` branch): a nil slice and a nil pointer
are zero, a struct is zero iff its `IsZero` flag says so, a non-nil
slice/map/func is never zero. -/
def reflectIsZero : Value → Bool
  | .vNilSlice => true
  | .vPtr isNil => isNil
  | .vStruct isZero => isZero
  | _ => false

/-- Restatement of the condition conversion rule actually implemented by
`evalCondition`: `bool`/ints/strings by their obvious tests, `nil` false,
and every other value truthy iff it is not reflect-zero. -/
def condBoolSpec : Value → Bool
  | .vBool b => b
  | .vInt i => i != 0
  | .vStr s => s != ""
  | .vNil => false
  | v => !reflectIsZero v

/-- Whether a scope entry would be invoked directly by `executeFuncBlock`
(a callable whose reflect signature is `func(*Query)`- or
`func(Query)`-shaped); anything else falls through to the expression
route. -/
def directCallTag : Option Value → Bool
  | some (.vFunc _ tag) => tag == funcTagQueryPtr || tag == funcTagQueryVal
  | _ => false

mutual

/-- Safety predicate for the amended `Query` invariant: a node list whose
rendering can only produce `?` characters through `appendArg` — no
conditional markers (whose line rollback can erase already-counted `?`),
no raw output, no function blocks, no stray cover nodes, and no literal
`?` in text. -/
def safeL : List Node → Bool
  | [] => true
  | n :: rest => safeN n && safeL rest

/-- Per-node case of `safeL`. -/
def safeN : Node → Bool
  | .text s => countQ s == 0
  | .varN _ conditional => !conditional
  | .varExpr _ conditional => !conditional
  | .rawN _ _ => false
  | .rawExpr _ _ => false
  | .condLine _ lineNodes => safeL lineNodes
  | .ifN _ body elseIf elseB =>
      safeL body && safeBodies elseIf && safeOpt elseB
  | .forN _ body => safeL body
  | .code _ => true
  | .useN _ covers => safeBodies covers
  | .defineN _ body => safeL body
  | .coverN _ _ => false
  | .funcBlock _ _ => false

/-- Safety of a named-body list (else-if clauses, cover children, cover
maps). -/
def safeBodies : List (String × List Node) → Bool
  | [] => true
  | (_, body) :: rest => safeL body && safeBodies rest

/-- Safety of an optional else body. -/
def safeOpt : Option (List Node) → Bool
  | some eb => safeL eb
  | none => true

end

/-- Environment safety for the amended `Query` invariant: every template
body is safe. -/
def envSafeB (env : Env) : Bool :=
  env.templates.all (fun p => safeL p.2)

mutual

/-- All define blocks of a node list in depth-first pre-order, descending
exactly where `findDefine` descends (define bodies, if bodies including
else-if and else branches, for bodies). -/
def allDefines : List Node → List (String × List Node)
  | [] => []
  | n :: rest => allDefinesNode n ++ allDefines rest

/-- Per-node case of `allDefines`. -/
def allDefinesNode : Node → List (String × List Node)
  | .defineN nm body => (nm, body) :: allDefines body
  | .ifN _ body elseIf elseB =>
      allDefines body ++ allDefinesElseIf elseIf ++
        (match elseB with | some eb => allDefines eb | none => [])
  | .forN _ body => allDefines body
  | _ => []

/-- `allDefines` over else-if clauses. -/
def allDefinesElseIf : List (String × List Node) → List (String × List Node)
  | [] => []
  | (_, body) :: rest => allDefines body ++ allDefinesElseIf rest

end

/-! ## Helper lemmas -/

/-- `countQ` distributes over append. -/
theorem countQ_append (a b : String) : countQ (a ++ b) = countQ a + countQ b := by
  cases a with
  | mk da =>
      cases b with
      | mk db => simp [countQ, String.toList, String.append, List.count_append]

/-- The `appendArg` slice loop appends the joined markers and the elements
in order. -/
theorem appendArgLoop_eq (xs : List Value) :
    ∀ (ctx : Ctx) (first : Bool),
      appendArgLoop ctx first xs =
        { ctx with sql := ctx.sql ++ qmarksF first xs.length,
                   args := ctx.args ++ xs } := by
  induction xs with
  | nil => intro ctx first; simp [appendArgLoop, qmarksF]
  | cons v rest ih =>
      intro ctx first
      cases first <;>
        simp [appendArgLoop, qmarksF, ih, String.append_assoc, List.append_assoc]

/-- `appendArg` appends exactly the placeholder markers and parameter
elements of the value, in order: one `?`/one param for a scalar, `N` `?`
joined by `", "` and the `N` elements for a slice or array. -/
theorem appendArg_eq (ctx : Ctx) (v : Value) :
    appendArg ctx v =
      { ctx with sql := ctx.sql ++ qmarksF true (argElems v).length,
                 args := ctx.args ++ argElems v } := by
  cases v <;> simp [appendArg, argElems, qmarksF, appendArgLoop_eq]

/-- The joined marker string contains exactly one `?` per element. -/
theorem countQ_qmarksF : ∀ (first : Bool) (n : Nat), countQ (qmarksF first n) = n := by
  intro first n
  induction n generalizing first with
  | zero => cases first <;> rfl
  | succ m ih =>
      have h1 : countQ "?" = 1 := rfl
      have h2 : countQ ", ?" = 1 := rfl
      cases first <;> simp [qmarksF, countQ_append, ih, h1, h2] <;> omega

/-- A lookup in a map whose values all satisfy a property returns a value
satisfying it. -/
theorem lookupA_forall {α : Type} (P : α → Prop) :
    ∀ (m : List (String × α)) (k : String) (v : α),
      (∀ p ∈ m, P p.2) → lookupA m k = some v → P v := by
  intro m
  induction m with
  | nil => intro k v _ h; exact absurd h (by simp [lookupA])
  | cons q rest ih =>
      intro k v hall h
      obtain ⟨k', v'⟩ := q
      simp only [lookupA] at h
      split at h
      · injection h with h
        subst h
        exact hall (k', v') (List.mem_cons_self _ _)
      · exact ih k v (fun r hr => hall r (List.mem_cons_of_mem _ hr)) h

/-- `setA` preserves a property of all values when the new value has it. -/
theorem setA_forall {α : Type} (P : α → Prop) :
    ∀ (m : List (String × α)) (k : String) (v : α),
      (∀ p ∈ m, P p.2) → P v → ∀ p ∈ setA m k v, P p.2 := by
  intro m
  induction m with
  | nil =>
      intro k v _ hv p hp
      simp only [setA, List.mem_singleton] at hp
      subst hp
      exact hv
  | cons q rest ih =>
      intro k v hall hv p hp
      obtain ⟨k', v'⟩ := q
      simp only [setA] at hp
      split at hp
      · rcases List.mem_cons.mp hp with hp | hp
        · subst hp; exact hv
        · exact hall p (List.mem_cons_of_mem _ hp)
      · rcases List.mem_cons.mp hp with hp | hp
        · subst hp; exact hall (k', v') (List.mem_cons_self _ _)
        · exact ih k v (fun r hr => hall r (List.mem_cons_of_mem _ hr)) hv p hp

mutual

/-- `findDefine` is `List.find?` with whole-name equality over the
depth-first pre-order listing of all defines. -/
theorem findDefine_chr : ∀ (nodes : List Node) (name : String),
    findDefine nodes name = (allDefines nodes).find? (fun p => p.1 == name)
  | [], _ => by simp [findDefine, allDefines]
  | n :: rest, name => by
      have h2 := findDefineNode_chr n name
      have h1 := findDefine_chr rest name
      cases hval : findDefineNode n name with
      | some d =>
          rw [hval] at h2
          simp [findDefine, allDefines, List.find?_append, hval, ← h2]
      | none =>
          rw [hval] at h2
          simp [findDefine, allDefines, List.find?_append, hval, ← h2, h1]

/-- Per-node case of `findDefine_chr`. -/
theorem findDefineNode_chr : ∀ (n : Node) (name : String),
    findDefineNode n name = (allDefinesNode n).find? (fun p => p.1 == name)
  | .defineN nm body, name => by
      by_cases h : nm = name
      · subst h
        simp [findDefineNode, allDefinesNode]
      · simp [findDefineNode, allDefinesNode, h, findDefine_chr body name]
  | .ifN c body elseIf elseB, name => by
      have h1 := findDefine_chr body name
      have h3 := findDefineElseIf_chr elseIf name
      cases elseB with
      | some eb =>
          have he := findDefine_chr eb name
          simp only [findDefineNode, allDefinesNode, List.find?_append,
            List.append_assoc, ← h1, ← h3, ← he]
          cases findDefine body name <;>
            cases findDefineElseIf elseIf name <;> simp
      | none =>
          simp only [findDefineNode, allDefinesNode, List.find?_append,
            List.append_assoc, List.append_nil, ← h1, ← h3]
          cases findDefine body name <;>
            cases findDefineElseIf elseIf name <;> simp
  | .forN e body, name => by
      simp [findDefineNode, allDefinesNode, findDefine_chr body name]
  | .text _, _ => by simp [findDefineNode, allDefinesNode]
  | .varN _ _, _ => by simp [findDefineNode, allDefinesNode]
  | .varExpr _ _, _ => by simp [findDefineNode, allDefinesNode]
  | .rawN _ _, _ => by simp [findDefineNode, allDefinesNode]
  | .rawExpr _ _, _ => by simp [findDefineNode, allDefinesNode]
  | .condLine _ _, _ => by simp [findDefineNode, allDefinesNode]
  | .code _, _ => by simp [findDefineNode, allDefinesNode]
  | .useN _ _, _ => by simp [findDefineNode, allDefinesNode]
  | .coverN _ _, _ => by simp [findDefineNode, allDefinesNode]
  | .funcBlock _ _, _ => by simp [findDefineNode, allDefinesNode]

/-- Else-if case of `findDefine_chr`. -/
theorem findDefineElseIf_chr : ∀ (l : List (String × List Node)) (name : String),
    findDefineElseIf l name = (allDefinesElseIf l).find? (fun p => p.1 == name)
  | [], _ => by simp [findDefineElseIf, allDefinesElseIf]
  | (fst, body) :: rest, name => by
      have h1 := findDefine_chr body name
      have h3 := findDefineElseIf_chr rest name
      simp only [findDefineElseIf, allDefinesElseIf, List.find?_append, ← h1, h3]
      cases findDefine body name <;> simp

end

/-- `appendArg` preserves the `?`-count/params-length balance and the
cover map. -/
theorem appendArg_inv (ctx : Ctx) (v : Value) :
    countQ ctx.sql = ctx.args.length →
    countQ (appendArg ctx v).sql = (appendArg ctx v).args.length ∧
    (appendArg ctx v).covers = ctx.covers := by
  intro hi
  rw [appendArg_eq]
  simp [countQ_append, countQ_qmarksF, hi]

/-- A successful non-conditional `executeVarNode` preserves the balance
and the cover map. -/
theorem executeVarNode_nonCond_inv :
    ∀ (ctx : Ctx) (name : String) (ctx' : Ctx),
      executeVarNode ctx name false = .ok ctx' →
      countQ ctx.sql = ctx.args.length →
      countQ ctx'.sql = ctx'.args.length ∧ ctx'.covers = ctx.covers := by
  intro ctx name ctx' h hi
  unfold executeVarNode at h
  cases hl : lookupA ctx.scope name with
  | none => rw [hl] at h; exact absurd h (by simp)
  | some v =>
      rw [hl] at h
      simp only [false_and, if_false] at h
      injection h with h
      subst h
      exact appendArg_inv ctx v hi

/-- `safeBodies` is the pointwise safety of every body in the list. -/
theorem safeBodies_iff :
    ∀ (m : List (String × List Node)),
      safeBodies m = true ↔ ∀ p ∈ m, safeL p.2 = true := by
  intro m
  induction m with
  | nil => simp [safeBodies]
  | cons q rest ih =>
      obtain ⟨k, body⟩ := q
      simp [safeBodies, Bool.and_eq_true, ih]

/-- A lookup in the template table of a safe environment yields a safe
node list. -/
theorem envSafeB_lookup :
    ∀ (env : Env), envSafeB env = true →
      ∀ (k : String) (ns : List Node),
        lookupA env.templates k = some ns → safeL ns = true := by
  intro env h k ns hl
  refine lookupA_forall (fun l => safeL l = true) env.templates k ns ?_ hl
  intro p hp
  exact List.all_eq_true.mp h p hp

/-- The cover map built by `executeUse` from safe cover children is
safe. -/
theorem buildCovers_safe :
    ∀ (covers : List (String × List Node)),
      safeBodies covers = true → safeBodies (buildCovers covers) = true := by
  have hfold : ∀ (covers acc : List (String × List Node)),
      (∀ p ∈ acc, safeL p.2 = true) → (∀ p ∈ covers, safeL p.2 = true) →
      ∀ p ∈ covers.foldl (fun m c => setA m c.1 c.2) acc, safeL p.2 = true := by
    intro covers
    induction covers with
    | nil => intro acc hacc _ p hp; exact hacc p hp
    | cons c rest ih =>
        intro acc hacc hcov p hp
        refine ih (setA acc c.1 c.2) ?_ (fun r hr => hcov r (List.mem_cons_of_mem _ hr)) p hp
        exact setA_forall (fun l => safeL l = true) acc c.1 c.2 hacc
          (hcov c (List.mem_cons_self _ _))
  intro covers h
  rw [safeBodies_iff] at h ⊢
  exact hfold covers [] (by simp) h

mutual

/-- Every define listed by `allDefines` of a safe node list has a safe
body. -/
theorem allDefines_safe :
    ∀ (nodes : List Node), safeL nodes = true →
      ∀ p ∈ allDefines nodes, safeL p.2 = true
  | [] => by intro _ p hp; simp [allDefines] at hp
  | n :: rest => by
      intro h p hp
      rw [show safeL (n :: rest) = (safeN n && safeL rest) from rfl,
        Bool.and_eq_true] at h
      simp only [allDefines, List.mem_append] at hp
      cases hp with
      | inl hp => exact allDefinesNode_safe n h.1 p hp
      | inr hp => exact allDefines_safe rest h.2 p hp

/-- Per-node case of `allDefines_safe`. -/
theorem allDefinesNode_safe :
    ∀ (n : Node), safeN n = true →
      ∀ p ∈ allDefinesNode n, safeL p.2 = true
  | .defineN nm body => by
      intro h p hp
      rw [show safeN (.defineN nm body) = safeL body from rfl] at h
      simp only [allDefinesNode, List.mem_cons] at hp
      cases hp with
      | inl hp => subst hp; exact h
      | inr hp => exact allDefines_safe body h p hp
  | .ifN c body elseIf elseB => by
      intro h p hp
      rw [show safeN (.ifN c body elseIf elseB) =
        (safeL body && safeBodies elseIf && safeOpt elseB) from rfl,
        Bool.and_eq_true, Bool.and_eq_true] at h
      cases elseB with
      | some eb =>
          simp only [allDefinesNode, List.mem_append] at hp
          rcases hp with (hp | hp) | hp
          · exact allDefines_safe body h.1.1 p hp
          · exact allDefinesElseIf_safe elseIf h.1.2 p hp
          · exact allDefines_safe eb h.2 p hp
      | none =>
          simp only [allDefinesNode, List.mem_append] at hp
          rcases hp with (hp | hp) | hp
          · exact allDefines_safe body h.1.1 p hp
          · exact allDefinesElseIf_safe elseIf h.1.2 p hp
          · simp at hp
  | .forN e body => by
      intro h p hp
      rw [show safeN (.forN e body) = safeL body from rfl] at h
      simp only [allDefinesNode] at hp
      exact allDefines_safe body h p hp
  | .text _ => by intro _ p hp; simp [allDefinesNode] at hp
  | .varN _ _ => by intro _ p hp; simp [allDefinesNode] at hp
  | .varExpr _ _ => by intro _ p hp; simp [allDefinesNode] at hp
  | .rawN _ _ => by intro _ p hp; simp [allDefinesNode] at hp
  | .rawExpr _ _ => by intro _ p hp; simp [allDefinesNode] at hp
  | .condLine _ _ => by intro _ p hp; simp [allDefinesNode] at hp
  | .code _ => by intro _ p hp; simp [allDefinesNode] at hp
  | .useN _ _ => by intro _ p hp; simp [allDefinesNode] at hp
  | .coverN _ _ => by intro _ p hp; simp [allDefinesNode] at hp
  | .funcBlock _ _ => by intro _ p hp; simp [allDefinesNode] at hp

/-- Else-if case of `allDefines_safe`. -/
theorem allDefinesElseIf_safe :
    ∀ (l : List (String × List Node)), safeBodies l = true →
      ∀ p ∈ allDefinesElseIf l, safeL p.2 = true
  | [] => by intro _ p hp; simp [allDefinesElseIf] at hp
  | (k, body) :: rest => by
      intro h p hp
      rw [show safeBodies ((k, body) :: rest) =
        (safeL body && safeBodies rest) from rfl, Bool.and_eq_true] at h
      simp only [allDefinesElseIf, List.mem_append] at hp
      cases hp with
      | inl hp => exact allDefines_safe body h.1 p hp
      | inr hp => exact allDefinesElseIf_safe rest h.2 p hp

end

/-- A define found inside a safe node list has a safe body. -/
theorem findDefine_safeL :
    ∀ (nodes : List Node) (name nm : String) (body : List Node),
      safeL nodes = true → findDefine nodes name = some (nm, body) →
      safeL body = true := by
  intro nodes name nm body hs hf
  rw [findDefine_chr] at hf
  exact allDefines_safe nodes hs (nm, body) (List.mem_of_find?_eq_some hf)

/-- A successful for-loop post step changes only the scope. -/
theorem executePost_state :
    ∀ (env : Env) (ctx : Ctx) (v p : String) (ctx' : Ctx),
      executePost env ctx v p = .ok ctx' →
      ctx'.sql = ctx.sql ∧ ctx'.args = ctx.args ∧ ctx'.covers = ctx.covers := by
  intro env ctx v p ctx' h
  simp only [executePost] at h
  repeat' split at h
  all_goals
    first
    | exact Except.noConfusion h
    | (cases h; exact ⟨rfl, rfl, rfl⟩)

/-- The balance invariant “`?`-count of the SQL buffer = length of the
parameter list” is preserved by every execution function on safe nodes
(under a safe environment), together with safety of the active cover map.
One conjunct per execution function of the engine; proved by induction on
fuel. -/
theorem safeInvariant (env : Env) (henv : envSafeB env = true) :
    ∀ fuel : Nat,
      (∀ (ctx : Ctx) (ns : List Node) (ctx' : Ctx),
          safeL ns = true → safeBodies ctx.covers = true →
          countQ ctx.sql = ctx.args.length →
          executeNodes fuel env ctx ns = .ok ctx' →
          countQ ctx'.sql = ctx'.args.length ∧ safeBodies ctx'.covers = true) ∧
      (∀ (ctx : Ctx) (n : Node) (ctx' : Ctx),
          safeN n = true → safeBodies ctx.covers = true →
          countQ ctx.sql = ctx.args.length →
          executeNode fuel env ctx n = .ok ctx' →
          countQ ctx'.sql = ctx'.args.length ∧ safeBodies ctx'.covers = true) ∧
      (∀ (ctx : Ctx) (cnd : String) (ln : List Node) (ctx' : Ctx),
          safeL ln = true → safeBodies ctx.covers = true →
          countQ ctx.sql = ctx.args.length →
          executeConditionalLine fuel env ctx cnd ln = .ok ctx' →
          countQ ctx'.sql = ctx'.args.length ∧ safeBodies ctx'.covers = true) ∧
      (∀ (ctx : Ctx) (cnd : String) (b : List Node)
          (ei : List (String × List Node)) (eb : Option (List Node)) (ctx' : Ctx),
          safeL b = true → safeBodies ei = true → safeOpt eb = true →
          safeBodies ctx.covers = true → countQ ctx.sql = ctx.args.length →
          executeIf fuel env ctx cnd b ei eb = .ok ctx' →
          countQ ctx'.sql = ctx'.args.length ∧ safeBodies ctx'.covers = true) ∧
      (∀ (ctx : Ctx) (ei : List (String × List Node)) (eb : Option (List Node))
          (ctx' : Ctx),
          safeBodies ei = true → safeOpt eb = true →
          safeBodies ctx.covers = true → countQ ctx.sql = ctx.args.length →
          executeElseIfChain fuel env ctx ei eb = .ok ctx' →
          countQ ctx'.sql = ctx'.args.length ∧ safeBodies ctx'.covers = true) ∧
      (∀ (ctx : Ctx) (e : String) (b : List Node) (ctx' : Ctx),
          safeL b = true → safeBodies ctx.covers = true →
          countQ ctx.sql = ctx.args.length →
          executeFor fuel env ctx e b = .ok ctx' →
          countQ ctx'.sql = ctx'.args.length ∧ safeBodies ctx'.covers = true) ∧
      (∀ (ctx : Ctx) (e : String) (b : List Node) (ctx' : Ctx),
          safeL b = true → safeBodies ctx.covers = true →
          countQ ctx.sql = ctx.args.length →
          executeForRange fuel env ctx e b = .ok ctx' →
          countQ ctx'.sql = ctx'.args.length ∧ safeBodies ctx'.covers = true) ∧
      (∀ (ctx : Ctx) (iv vv : String) (i : Int) (xs : List Value)
          (b : List Node) (ctx' : Ctx),
          safeL b = true → safeBodies ctx.covers = true →
          countQ ctx.sql = ctx.args.length →
          executeForRangeSlice fuel env ctx iv vv i xs b = .ok ctx' →
          countQ ctx'.sql = ctx'.args.length ∧ safeBodies ctx'.covers = true) ∧
      (∀ (ctx : Ctx) (iv vv : String) (entries : List (String × Value))
          (b : List Node) (ctx' : Ctx),
          safeL b = true → safeBodies ctx.covers = true →
          countQ ctx.sql = ctx.args.length →
          executeForRangeMap fuel env ctx iv vv entries b = .ok ctx' →
          countQ ctx'.sql = ctx'.args.length ∧ safeBodies ctx'.covers = true) ∧
      (∀ (ctx : Ctx) (e : String) (b : List Node) (ctx' : Ctx),
          safeL b = true → safeBodies ctx.covers = true →
          countQ ctx.sql = ctx.args.length →
          executeForTraditional fuel env ctx e b = .ok ctx' →
          countQ ctx'.sql = ctx'.args.length ∧ safeBodies ctx'.covers = true) ∧
      (∀ (ctx : Ctx) (v cp pp : String) (b : List Node) (ctx' : Ctx),
          safeL b = true → safeBodies ctx.covers = true →
          countQ ctx.sql = ctx.args.length →
          executeForLoop fuel env ctx v cp pp b = .ok ctx' →
          countQ ctx'.sql = ctx'.args.length ∧ safeBodies ctx'.covers = true) ∧
      (∀ (ctx : Ctx) (path : String) (covers : List (String × List Node))
          (ctx' : Ctx),
          safeBodies covers = true → safeBodies ctx.covers = true →
          countQ ctx.sql = ctx.args.length →
          executeUse fuel env ctx path covers = .ok ctx' →
          countQ ctx'.sql = ctx'.args.length ∧ safeBodies ctx'.covers = true) ∧
      (∀ (ctx : Ctx) (name : String) (b : List Node) (ctx' : Ctx),
          safeL b = true → safeBodies ctx.covers = true →
          countQ ctx.sql = ctx.args.length →
          executeDefine fuel env ctx name b = .ok ctx' →
          countQ ctx'.sql = ctx'.args.length ∧ safeBodies ctx'.covers = true) := by
  intro fuel
  induction fuel with
  | zero =>
      refine ⟨?_, ?_, ?_, ?_, ?_, ?_, ?_, ?_, ?_, ?_, ?_, ?_, ?_⟩ <;> intros <;>
        simp_all [executeNodes, executeNode, executeConditionalLine, executeIf,
          executeElseIfChain, executeFor, executeForRange, executeForRangeSlice,
          executeForRangeMap, executeForTraditional, executeForLoop, executeUse,
          executeDefine]
  | succ f ih =>
      obtain ⟨ihNodes, ihNode, ihCond, ihIf, ihChain, ihFor, ihRange, ihRSlice,
        ihRMap, ihTrad, ihLoop, ihUse, ihDefine⟩ := ih
      refine ⟨?_, ?_, ?_, ?_, ?_, ?_, ?_, ?_, ?_, ?_, ?_, ?_, ?_⟩
      -- executeNodes
      · intro ctx ns ctx' hs hc hi hexec
        cases ns with
        | nil =>
            simp only [executeNodes] at hexec
            cases hexec
            exact ⟨hi, hc⟩
        | cons n rest =>
            rw [show safeL (n :: rest) = (safeN n && safeL rest) from rfl,
              Bool.and_eq_true] at hs
            simp only [executeNodes] at hexec
            cases hmid : executeNode f env ctx n with
            | error e => rw [hmid] at hexec; exact Except.noConfusion hexec
            | ok mid =>
                rw [hmid] at hexec
                obtain ⟨hi', hc'⟩ := ihNode ctx n mid hs.1 hc hi hmid
                exact ihNodes mid rest ctx' hs.2 hc' hi' hexec
      -- executeNode
      · intro ctx n ctx' hs hc hi hexec
        cases n with
        | text s =>
            simp only [executeNode] at hexec
            cases hexec
            rw [show safeN (.text s) = (countQ s == 0) from rfl] at hs
            have h0 : countQ s = 0 := by simpa using hs
            exact ⟨by simp [countQ_append, h0, hi], hc⟩
        | varN name c =>
            rw [show safeN (.varN name c) = !c from rfl] at hs
            have hcf : c = false := by simpa using hs
            subst hcf
            simp only [executeNode] at hexec
            obtain ⟨hi', he⟩ := executeVarNode_nonCond_inv ctx name ctx' hexec hi
            exact ⟨hi', he ▸ hc⟩
        | varExpr ex c =>
            rw [show safeN (.varExpr ex c) = !c from rfl] at hs
            have hcf : c = false := by simpa using hs
            subst hcf
            simp only [executeNode, executeVarExprNode] at hexec
            cases hev : env.eval ex ctx.scope with
            | error e => rw [hev] at hexec; exact Except.noConfusion hexec
            | ok v =>
                rw [hev] at hexec
                simp only [false_and, if_false] at hexec
                cases hexec
                obtain ⟨hi', he⟩ := appendArg_inv ctx v hi
                exact ⟨hi', he ▸ hc⟩
        | rawN name c =>
            rw [show safeN (.rawN name c) = false from rfl] at hs
            exact absurd hs (by simp)
        | rawExpr ex c =>
            rw [show safeN (.rawExpr ex c) = false from rfl] at hs
            exact absurd hs (by simp)
        | condLine cnd ln =>
            simp only [executeNode] at hexec
            exact ihCond ctx cnd ln ctx' hs hc hi hexec
        | ifN cnd b ei eb =>
            rw [show safeN (.ifN cnd b ei eb) =
              (safeL b && safeBodies ei && safeOpt eb) from rfl,
              Bool.and_eq_true, Bool.and_eq_true] at hs
            simp only [executeNode] at hexec
            exact ihIf ctx cnd b ei eb ctx' hs.1.1 hs.1.2 hs.2 hc hi hexec
        | forN e b =>
            simp only [executeNode] at hexec
            exact ihFor ctx e b ctx' hs hc hi hexec
        | code cd =>
            simp only [executeNode] at hexec
            cases hrc : env.runCode cd ctx.scope with
            | error e => rw [hrc] at hexec; exact Except.noConfusion hexec
            | ok u => rw [hrc] at hexec; cases hexec; exact ⟨hi, hc⟩
        | useN path covers =>
            simp only [executeNode] at hexec
            exact ihUse ctx path covers ctx' hs hc hi hexec
        | defineN name b =>
            simp only [executeNode] at hexec
            exact ihDefine ctx name b ctx' hs hc hi hexec
        | coverN name b =>
            rw [show safeN (.coverN name b) = false from rfl] at hs
            exact absurd hs (by simp)
        | funcBlock fe b =>
            rw [show safeN (.funcBlock fe b) = false from rfl] at hs
            exact absurd hs (by simp)
      -- executeConditionalLine
      · intro ctx cnd ln ctx' hs hc hi hexec
        simp only [executeConditionalLine] at hexec
        cases hev : evalCondition env cnd ctx.scope with
        | error e => rw [hev] at hexec; exact Except.noConfusion hexec
        | ok b =>
            rw [hev] at hexec
            cases b with
            | false => cases hexec; exact ⟨hi, hc⟩
            | true => exact ihNodes ctx ln ctx' hs hc hi hexec
      -- executeIf
      · intro ctx cnd b ei eb ctx' hb hei heb hc hi hexec
        simp only [executeIf] at hexec
        cases hev : evalCondition env cnd ctx.scope with
        | error e => rw [hev] at hexec; exact Except.noConfusion hexec
        | ok r =>
            rw [hev] at hexec
            cases r with
            | true => exact ihNodes ctx b ctx' hb hc hi hexec
            | false => exact ihChain ctx ei eb ctx' hei heb hc hi hexec
      -- executeElseIfChain
      · intro ctx ei eb ctx' hei heb hc hi hexec
        cases ei with
        | nil =>
            simp only [executeElseIfChain] at hexec
            cases eb with
            | some ebb => exact ihNodes ctx ebb ctx' heb hc hi hexec
            | none => cases hexec; exact ⟨hi, hc⟩
        | cons ce rest =>
            obtain ⟨cnd, body⟩ := ce
            rw [show safeBodies ((cnd, body) :: rest) =
              (safeL body && safeBodies rest) from rfl, Bool.and_eq_true] at hei
            simp only [executeElseIfChain] at hexec
            cases hev : evalCondition env cnd ctx.scope with
            | error e => rw [hev] at hexec; exact Except.noConfusion hexec
            | ok r =>
                rw [hev] at hexec
                cases r with
                | true => exact ihNodes ctx body ctx' hei.1 hc hi hexec
                | false => exact ihChain ctx rest eb ctx' hei.2 heb hc hi hexec
      -- executeFor
      · intro ctx e b ctx' hs hc hi hexec
        simp only [executeFor] at hexec
        split at hexec
        · exact ihRange ctx (trimS e) b ctx' hs hc hi hexec
        · exact ihTrad ctx (trimS e) b ctx' hs hc hi hexec
      -- executeForRange
      · intro ctx e b ctx' hs hc hi hexec
        simp only [executeForRange] at hexec
        split at hexec
        · exact Except.noConfusion hexec
        · rename_i varPart rest _
          split at hexec
          · exact Except.noConfusion hexec
          · rename_i rv _
            cases rv with
            | vSlice xs =>
                exact ihRSlice ctx _ _ 0 xs b ctx' hs hc hi hexec
            | vNilSlice => cases hexec; exact ⟨hi, hc⟩
            | vMap entries =>
                exact ihRMap ctx _ _ entries b ctx' hs hc hi hexec
            | vNil => exact Except.noConfusion hexec
            | vBool x => exact Except.noConfusion hexec
            | vInt x => exact Except.noConfusion hexec
            | vStr x => exact Except.noConfusion hexec
            | vPtr x => exact Except.noConfusion hexec
            | vStruct x => exact Except.noConfusion hexec
            | vFunc x y => exact Except.noConfusion hexec
            | vQueryRef x y => exact Except.noConfusion hexec
      -- executeForRangeSlice
      · intro ctx iv vv i xs b ctx' hs hc hi hexec
        cases xs with
        | nil =>
            simp only [executeForRangeSlice] at hexec
            cases hexec
            exact ⟨hi, hc⟩
        | cons x rest =>
            simp only [executeForRangeSlice] at hexec
            split at hexec
            · exact Except.noConfusion hexec
            · rename_i ctx₁ heq
              obtain ⟨hi₁, hc₁⟩ :=
                ihNodes _ b ctx₁ hs (by exact hc) (by exact hi) heq
              exact ihRSlice ctx₁ iv vv (i + 1) rest b ctx' hs hc₁ hi₁ hexec
      -- executeForRangeMap
      · intro ctx iv vv entries b ctx' hs hc hi hexec
        cases entries with
        | nil =>
            simp only [executeForRangeMap] at hexec
            cases hexec
            exact ⟨hi, hc⟩
        | cons kv rest =>
            obtain ⟨k, v⟩ := kv
            simp only [executeForRangeMap] at hexec
            split at hexec
            · exact Except.noConfusion hexec
            · rename_i ctx₁ heq
              obtain ⟨hi₁, hc₁⟩ :=
                ihNodes _ b ctx₁ hs (by exact hc) (by exact hi) heq
              exact ihRMap ctx₁ iv vv rest b ctx' hs hc₁ hi₁ hexec
      -- executeForTraditional
      · intro ctx e b ctx' hs hc hi hexec
        simp only [executeForTraditional] at hexec
        split at hexec
        · split at hexec
          · split at hexec
            · cases hexec; exact ⟨hi, hc⟩
            · split at hexec
              · exact Except.noConfusion hexec
              · rename_i initValue _
                exact ihLoop _ _ _ _ b ctx' hs (by exact hc) (by exact hi) hexec
          · cases hexec; exact ⟨hi, hc⟩
        · exact Except.noConfusion hexec
      -- executeForLoop
      · intro ctx v cp pp b ctx' hs hc hi hexec
        simp only [executeForLoop] at hexec
        split at hexec
        · exact Except.noConfusion hexec
        · cases hexec; exact ⟨hi, hc⟩
        · split at hexec
          · exact Except.noConfusion hexec
          · rename_i ctx₁ heq
            obtain ⟨hi₁, hc₁⟩ := ihNodes ctx b ctx₁ hs hc hi heq
            split at hexec
            · exact Except.noConfusion hexec
            · rename_i ctx₂ hpost
              obtain ⟨hsql, hargs, hcov⟩ := executePost_state env ctx₁ v pp ctx₂ hpost
              exact ihLoop ctx₂ v cp pp b ctx'
                hs (hcov ▸ hc₁) (by rw [hsql, hargs]; exact hi₁) hexec
      -- executeUse
      · intro ctx path covers ctx' hcov hc hi hexec
        simp only [executeUse] at hexec
        split at hexec
        · rename_i ns nm restParts hsplit
          cases hlook : lookupA env.templates (ns ++ "." ++ nm) with
          | none =>
              simp only [hlook] at hexec
              exact Except.noConfusion hexec
          | some tnodes =>
              simp only [hlook] at hexec
              have hts : safeL tnodes = true :=
                envSafeB_lookup env henv _ tnodes hlook
              have hbc : safeBodies (buildCovers covers) = true :=
                buildCovers_safe covers hcov
              split at hexec
              · split at hexec
                · exact Except.noConfusion hexec
                · rename_i dpair dbody hfind
                  split at hexec
                  · exact Except.noConfusion hexec
                  · rename_i ctx₂ heq
                    have hdb : safeL dbody = true :=
                      findDefine_safeL tnodes _ dpair dbody hts hfind
                    obtain ⟨hi₂, _⟩ :=
                      ihNodes { ctx with covers := buildCovers covers } dbody
                        ctx₂ hdb hbc hi heq
                    cases hexec
                    exact ⟨hi₂, hc⟩
              · split at hexec
                · exact Except.noConfusion hexec
                · rename_i ctx₂ heq
                  obtain ⟨hi₂, _⟩ :=
                    ihNodes { ctx with covers := buildCovers covers } tnodes
                      ctx₂ hts hbc hi heq
                  cases hexec
                  exact ⟨hi₂, hc⟩
        · exact Except.noConfusion hexec
      -- executeDefine
      · intro ctx name b ctx' hs hc hi hexec
        simp only [executeDefine] at hexec
        cases hl : lookupA ctx.covers name with
        | none => rw [hl] at hexec; exact ihNodes ctx b ctx' hs hc hi hexec
        | some coverBody =>
            rw [hl] at hexec
            have hcb : safeL coverBody = true :=
              lookupA_forall (fun l => safeL l = true) ctx.covers name coverBody
                ((safeBodies_iff ctx.covers).mp hc) hl
            exact ihNodes ctx coverBody ctx' hcb hc hi hexec

/-! ## Claims -/

/-- C1, as stated, is false on the code: a conditional placeholder's line
rollback erases buffered text — including `?` markers already written by
earlier placeholders on the same output line — but does not retract their
already-pushed parameters.  On template `where a=@a and b=@b?` with
`a = 7` and `b` absent, `GetSql` succeeds with SQL `""` (the whole
single-line buffer was discarded) yet one parameter, so the number of `?`
in the text (0) differs from `len(Params)` (1). -/
theorem C1_counterexample :
    GetSql envMixedLine 64 "t.q" [("a", Value.vInt 7)] =
      .ok ⟨"", [Value.vInt 7]⟩ ∧
    countQ "" ≠ ([Value.vInt 7] : List Value).length :=
  ⟨rfl, by decide⟩

/-- C1 amended: the invariant holds whenever nothing other than
`appendArg` can create or destroy `?` characters — i.e. for renders (over
any argument set and any environment whose templates are all safe) of
templates free of conditional markers, raw output, function blocks, stray
cover nodes, and literal `?` in text.  Then the number of `?` placeholders
in the returned SQL equals `len(Params)`; and ordering holds by
construction of `appendArg`, which appends its markers and its parameters
together, in order: a scalar placeholder contributes one `?` and one
param, a collection-valued one `N` `?` joined by `", "` and its `N`
elements in element order (first conjunct), with exactly one `?` per
element (second conjunct).  (The unrestricted claim fails only where the
counterexample shows: a conditional skip, raw output, a function block or
a literal `?` can unbalance text and params.) -/
theorem C1_amended_invariant :
    (∀ (ctx : Ctx) (v : Value),
        appendArg ctx v =
          { ctx with sql := ctx.sql ++ qmarksF true (argElems v).length,
                     args := ctx.args ++ argElems v }) ∧
    (∀ n : Nat, countQ (qmarksF true n) = n) ∧
    (∀ (env : Env) (fuel : Nat) (path : String) (scope : Scope) (q : Query),
        envSafeB env = true → GetSql env fuel path scope = .ok q →
        countQ q.SQL = q.Params.length) := by
  refine ⟨appendArg_eq, countQ_qmarksF true, ?_⟩
  intro env fuel path scope q hsafe hget
  have hinit : countQ (Ctx.mk scope "" [] []).sql =
      (Ctx.mk scope "" [] []).args.length := rfl
  have hcov : safeBodies (Ctx.mk scope "" [] []).covers = true := rfl
  simp only [GetSql] at hget
  split at hget
  · rename_i ns nm restParts hsplit
    cases hlook : lookupA env.templates (ns ++ "." ++ nm) with
    | none =>
        simp only [hlook] at hget
        exact Except.noConfusion hget
    | some astNodes =>
        simp only [hlook] at hget
        have hts : safeL astNodes = true :=
          envSafeB_lookup env hsafe _ astNodes hlook
        split at hget
        · cases hfind : findDefine astNodes (restParts.headD "") with
          | none =>
              simp only [hfind] at hget
              exact Except.noConfusion hget
          | some d =>
              obtain ⟨dnm, dbody⟩ := d
              simp only [hfind] at hget
              have hdb : safeL dbody = true :=
                findDefine_safeL astNodes _ dnm dbody hts hfind
              cases heq : executeNodes fuel env (Ctx.mk scope "" [] []) dbody with
              | error e =>
                  rw [heq] at hget
                  exact Except.noConfusion hget
              | ok ctx' =>
                  rw [heq] at hget
                  cases hget
                  exact ((safeInvariant env hsafe fuel).1
                    (Ctx.mk scope "" [] []) dbody ctx' hdb hcov hinit heq).1
        · cases heq : executeNodes fuel env (Ctx.mk scope "" [] []) astNodes with
          | error e =>
              rw [heq] at hget
              exact Except.noConfusion hget
          | ok ctx' =>
              rw [heq] at hget
              cases hget
              exact ((safeInvariant env hsafe fuel).1
                (Ctx.mk scope "" [] []) astNodes ctx' hts hcov hinit heq).1
  · exact Except.noConfusion hget

/-- Witness for C1's amended invariant at a concrete safe render with a
collection placeholder. -/
theorem C1_amended_invariant_witness :
    countQ "select * from t where id in (?, ?)" =
      ([Value.vInt 1, Value.vInt 2] : List Value).length :=
  C1_amended_invariant.2.2 envCollection 64 "t.e"
    [("ids", Value.vSlice [Value.vInt 1, Value.vInt 2])]
    ⟨"select * from t where id in (?, ?)", [Value.vInt 1, Value.vInt 2]⟩
    rfl rfl

/-- C9, as stated, is false on the code: the conditional-placeholder skip
test (`isTruthy`) and the condition conversion (`evalCondition`) do not
implement the same rule.  A zero-valued struct is truthy for the skip test
(the `default: true` branch) but falsy for conditions (`!IsZero`), so it
is not "truthy unless explicitly zero-valued" under one shared rule; a
non-nil empty slice is falsy for the skip test (`Len() > 0`) but truthy
for conditions (it is not the reflect zero value). -/
theorem C9_counterexample :
    isTruthy (Value.vStruct true) = true ∧
    toCondBool (Value.vStruct true) = false ∧
    isTruthy (Value.vSlice []) = false ∧
    toCondBool (Value.vSlice []) = true :=
  ⟨rfl, rfl, rfl, rfl⟩

/-- C9 amended: the two verdicts follow two different rules.  The
conditional-placeholder skip test treats nil/absent, boolean false,
numeric zero, empty string and empty collections (and nil pointers) as
falsy and everything else — including an explicitly zero-valued struct —
as truthy; condition evaluation maps bool/integers/strings/nil the same
way but every other value by non-zero-ness of its reflect value (so a
zero struct or nil-valued non-interface is falsy there, and a non-nil
empty slice is truthy). -/
theorem C9_amended_two_rules :
    ∀ v : Value, isTruthy v = !skipFalsySpec v ∧ toCondBool v = condBoolSpec v := by
  intro v
  refine ⟨?_, ?_⟩
  · cases v with
    | vInt i => simp [isTruthy, skipFalsySpec, bne]
    | vStr s => rfl
    | vSlice xs => cases xs <;> simp [isTruthy, skipFalsySpec]
    | vMap m => cases m <;> simp [isTruthy, skipFalsySpec]
    | vBool b => cases b <;> rfl
    | vPtr b => cases b <;> rfl
    | _ => rfl
  · cases v <;> rfl

/-- C10: a non-conditional placeholder whose value is an empty (or nil)
slice appends nothing to the SQL text — no `?`, no separator — pushes no
parameter, and the render succeeds: `appendArg`'s expansion loop runs zero
times.  The last conjunct shows a full render: the template text around
the placeholder is kept verbatim and the parameter list stays empty. -/
theorem C10_empty_collection_noop :
    (∀ ctx : Ctx, appendArg ctx (Value.vSlice []) = ctx ∧
        appendArg ctx Value.vNilSlice = ctx) ∧
    (∀ (ctx : Ctx) (name : String),
        lookupA ctx.scope name = some (Value.vSlice []) →
        executeVarNode ctx name false = .ok ctx) ∧
    (∀ (ctx : Ctx) (name : String),
        lookupA ctx.scope name = some Value.vNilSlice →
        executeVarNode ctx name false = .ok ctx) ∧
    GetSql envCollection 64 "t.e" [("ids", Value.vSlice [])] =
      .ok ⟨"select * from t where id in ()", []⟩ := by
  refine ⟨fun ctx => ⟨rfl, rfl⟩, ?_, ?_, rfl⟩
  · intro ctx name h
    simp [executeVarNode, h, appendArg, appendArgLoop]
  · intro ctx name h
    simp [executeVarNode, h, appendArg]

/-- Witness for C10 at a concrete context. -/
theorem C10_empty_collection_noop_witness :
    executeVarNode ⟨[("ids", Value.vSlice [])], "S", [Value.vInt 9], []⟩
      "ids" false = .ok ⟨[("ids", Value.vSlice [])], "S", [Value.vInt 9], []⟩ :=
  C10_empty_collection_noop.2.1 ⟨[("ids", Value.vSlice [])], "S", [Value.vInt 9], []⟩
    "ids" rfl

/-- C5: a non-conditional parameterized variable whose name is absent from
the scope at the moment it executes fails the render with the
`variable not found` (MissingVariable) error; the error aborts the node
list immediately, and `GetSql` propagates it, returning the error and no
`Query` (the `Except.error` result carries no SQL text and no params, as
the Go code returns the zero `Query{}` with a non-nil error). -/
theorem C5_missing_variable_fatal :
    (∀ (ctx : Ctx) (name : String),
        lookupA ctx.scope name = none →
        executeVarNode ctx name false = .error ("variable not found: " ++ name)) ∧
    (∀ (fuel : Nat) (env : Env) (ctx : Ctx) (name : String) (rest : List Node),
        lookupA ctx.scope name = none →
        executeNodes (fuel + 2) env ctx (.varN name false :: rest) =
          .error ("variable not found: " ++ name)) ∧
    GetSql envMissingVar 64 "t.m" [] = .error "variable not found: id" := by
  refine ⟨?_, ?_, rfl⟩
  · intro ctx name h
    simp [executeVarNode, h]
  · intro fuel env ctx name rest h
    simp [executeNodes, executeNode, executeVarNode, h]

/-- Witness for C5 at a concrete context. -/
theorem C5_missing_variable_fatal_witness :
    executeVarNode ⟨[("other", Value.vInt 1)], "", [], []⟩ "id" false =
      .error "variable not found: id" :=
  C5_missing_variable_fatal.1 ⟨[("other", Value.vInt 1)], "", [], []⟩ "id" rfl

/-- C6: the counted loop `@for i := 0; i < 3; i++ { x @i }` over an empty
initial scope executes its body exactly three times with `i` bound to
0, 1, 2 in that order (three `x` texts, three placeholders, params
`[0,1,2]`, final binding `i = 3`); the other conjuncts exercise the
post-step forms `+=` and `--` and the zero-iteration case, under the
modelled external evaluator `miniEval`. -/
theorem C6_counted_loop :
    executeNodes 64 miniEnv ⟨[], "", [], []⟩
        [.forN "i := 0; i < 3; i++" [.text "x", .varN "i" false]] =
      .ok ⟨[("i", Value.vInt 3)], "x?x?x?",
           [Value.vInt 0, Value.vInt 1, Value.vInt 2], []⟩ ∧
    executeNodes 64 miniEnv ⟨[], "", [], []⟩
        [.forN "i := 0; i < 4; i += 2" [.varN "i" false]] =
      .ok ⟨[("i", Value.vInt 4)], "??", [Value.vInt 0, Value.vInt 2], []⟩ ∧
    executeNodes 64 miniEnv ⟨[], "", [], []⟩
        [.forN "i := 3; 0 < i; i--" [.varN "i" false]] =
      .ok ⟨[("i", Value.vInt 0)], "???",
           [Value.vInt 3, Value.vInt 2, Value.vInt 1], []⟩ ∧
    executeNodes 64 miniEnv ⟨[], "", [], []⟩
        [.forN "i := 0; i < 0; i++" [.varN "i" false]] =
      .ok ⟨[("i", Value.vInt 0)], "", [], []⟩ :=
  ⟨rfl, rfl, rfl, rfl⟩

/-- C2 is the spec's (and the repository's own test's) reading, but the
code does not implement it: `executeDefine` consults the cover map only
under the define's exact name, and no dotted-path resolution exists
anywhere in execution, so `@cover abc.d { d block changed }` supplied at
`@use test.sql7_5` never fires — the rendered SQL still contains the
original nested `this is d block` and never the override.  This is the
`TestNestedDefineOverride` fixture; the test asserts the opposite of what
the code produces.  The last conjunct shows the outer-name half of the
claim does hold: `@cover abc { ... }` replaces the whole `abc` subtree. -/
theorem C2_dotted_cover_never_fires :
    GetSql envNestedCover 64 "test.sql8" [("id", Value.vInt 1)] =
      .ok ⟨"pre\n===\n\n\n    and id = ?\n    this is d block",
           [Value.vInt 1]⟩ ∧
    containsS "pre\n===\n\n\n    and id = ?\n    this is d block"
      "this is d block" = true ∧
    containsS "pre\n===\n\n\n    and id = ?\n    this is d block"
      "d block changed" = false ∧
    GetSql envNestedCover 64 "test.sql8_2" [] =
      .ok ⟨"pre\n===\n\nabc block changed", []⟩ :=
  ⟨rfl, rfl, rfl, rfl⟩

/-- C3, as stated, is false on the code: when the conditional line is
terminated by a newline, that newline was lexed into the *following* text
node, so the rollback (which only truncates back to the previous newline)
leaves an empty output line behind — a stray newline artifact.  Template
`a⏎and col = @x?⏎b` with `x` absent renders `"a\n\nb"`, whose line split
is `["a", "", "b"]`, not the artifact-free `["a", "b"]` the claim
demands. -/
theorem C3_counterexample :
    GetSql envCondLine 64 "t.mid" [] = .ok ⟨"a\n\nb", []⟩ ∧
    splitOnChar "a\n\nb" '\n' ≠ ["a", "b"] :=
  ⟨rfl, by decide⟩

/-- C3 amended: a conditional placeholder whose value is absent or falsy
rolls the SQL buffer back to just after the last newline (discarding the
current line's content), pushes no parameter, and the render succeeds;
with a truthy value it renders normally with a pushed parameter.  But the
conditional line's own terminating newline (part of the following text
node) is not removed, so a mid-template conditional line collapses to an
empty line (`"a\n\nb"`); only a conditional line at the very end of the
template disappears without trace (`"a\n"`). -/
theorem C3_amended_line_rollback :
    (∀ (ctx : Ctx) (name : String) (v : Value),
        lookupA ctx.scope name = some v → isTruthy v = false →
        executeVarNode ctx name true =
          .ok { ctx with sql := skipCurrentLineS ctx.sql }) ∧
    (∀ (ctx : Ctx) (name : String),
        lookupA ctx.scope name = none →
        executeVarNode ctx name true =
          .ok { ctx with sql := skipCurrentLineS ctx.sql }) ∧
    GetSql envCondLine 64 "t.mid" [] = .ok ⟨"a\n\nb", []⟩ ∧
    GetSql envCondLine 64 "t.mid" [("x", Value.vInt 0)] = .ok ⟨"a\n\nb", []⟩ ∧
    GetSql envCondLine 64 "t.tail" [] = .ok ⟨"a\n", []⟩ ∧
    GetSql envCondLine 64 "t.mid" [("x", Value.vInt 5)] =
      .ok ⟨"a\nand col = ?\nb", [Value.vInt 5]⟩ := by
  refine ⟨?_, ?_, rfl, rfl, rfl, rfl⟩
  · intro ctx name v h hv
    simp [executeVarNode, h, hv]
  · intro ctx name h
    simp [executeVarNode, h]

/-- Witness for C3 at a concrete context: the rollback erases the line's
buffered text, keeps the previous newline, and pushes nothing. -/
theorem C3_amended_line_rollback_witness :
    executeVarNode ⟨[("x", Value.vInt 0)], "a\nand col = ", [], []⟩ "x" true =
      .ok ⟨[("x", Value.vInt 0)], "a\n", [], []⟩ :=
  C3_amended_line_rollback.1 ⟨[("x", Value.vInt 0)], "a\nand col = ", [], []⟩
    "x" (Value.vInt 0) rfl rfl

/-- C4, as stated, is false on the code: `findDefine` performs no
dotted-path decomposition at all — it compares the searched name with each
define's name as a whole string.  On `@define a { sib @define b { inner } }`
the dotted lookup `"a.b"` (which the claim says reaches the nested `b`)
returns NotFound, while the plain name `"b"` does find the nested
define. -/
theorem C4_counterexample :
    findDefine nestedDefNodes "a.b" = none ∧
    findDefine nestedDefNodes "b" = some ("b", [Node.text "inner"]) :=
  ⟨rfl, rfl⟩

/-- C4 amended: `findDefine` is a depth-first pre-order search through
define bodies and through if bodies (including else-if and else branches)
and for bodies, matching the searched name against define names by
*whole-string* equality — equivalently, `List.find?` over the pre-order
listing of all defines; consequently a returned define's name always
equals the searched name, and there is no recursion on dotted-path
segments.  (Lookup is a pure function of the tree — the Go code performs
no writes — so it cannot mutate the tree.) -/
theorem C4_amended_whole_name_dfs :
    (∀ (nodes : List Node) (name : String),
        findDefine nodes name =
          (allDefines nodes).find? (fun p => p.1 == name)) ∧
    (∀ (nodes : List Node) (name nm : String) (body : List Node),
        findDefine nodes name = some (nm, body) → nm = name) := by
  refine ⟨findDefine_chr, ?_⟩
  intro nodes name nm body h
  rw [findDefine_chr] at h
  have := List.find?_some h
  simpa using this

/-- Witness for C4 at the concrete nested-define tree. -/
theorem C4_amended_whole_name_dfs_witness :
    findDefine nestedDefNodes "b" =
      (allDefines nestedDefNodes).find? (fun p => p.1 == "b") ∧
    ("b" : String) = "b" :=
  ⟨C4_amended_whole_name_dfs.1 nestedDefNodes "b",
   C4_amended_whole_name_dfs.2 nestedDefNodes "b" "b" [Node.text "inner"] rfl⟩

/-- C8: `executeUse` saves the active cover map, installs a fresh map
built only from the use's cover children, executes the target — the
looked-up template's root for a two-segment path, or the define block
named by the third segment, failing with the `define not found`
(DefineNotFound) error when it does not exist — and then restores the
saved cover map, so a successful use leaves the active cover map exactly
as it found it (cover scope is lexical to the one use invocation). -/
theorem C8_use_cover_scoping :
    (∀ (fuel : Nat) (env : Env) (ctx : Ctx) (path : String)
        (covers : List (String × List Node)) (ctx' : Ctx),
        executeUse fuel env ctx path covers = .ok ctx' →
        ctx'.covers = ctx.covers) ∧
    (∀ (fuel : Nat) (env : Env) (ctx : Ctx) (path ns nm : String)
        (covers : List (String × List Node)) (tnodes : List Node),
        splitOnChar path '.' = [ns, nm] →
        lookupA env.templates (ns ++ "." ++ nm) = some tnodes →
        executeUse (fuel + 1) env ctx path covers =
          match executeNodes fuel env { ctx with covers := buildCovers covers }
              tnodes with
          | .error e => .error e
          | .ok mid => .ok { mid with covers := ctx.covers }) ∧
    (∀ (fuel : Nat) (env : Env) (ctx : Ctx) (path ns nm dn : String)
        (covers : List (String × List Node)) (tnodes : List Node)
        (x : String) (dbody : List Node),
        splitOnChar path '.' = [ns, nm, dn] → dn ≠ "" →
        lookupA env.templates (ns ++ "." ++ nm) = some tnodes →
        findDefine tnodes dn = some (x, dbody) →
        executeUse (fuel + 1) env ctx path covers =
          match executeNodes fuel env { ctx with covers := buildCovers covers }
              dbody with
          | .error e => .error e
          | .ok mid => .ok { mid with covers := ctx.covers }) ∧
    (∀ (fuel : Nat) (env : Env) (ctx : Ctx) (path ns nm dn : String)
        (covers : List (String × List Node)) (tnodes : List Node),
        splitOnChar path '.' = [ns, nm, dn] → dn ≠ "" →
        lookupA env.templates (ns ++ "." ++ nm) = some tnodes →
        findDefine tnodes dn = none →
        executeUse (fuel + 1) env ctx path covers =
          .error ("define not found: " ++ dn ++ " in template " ++
            (ns ++ "." ++ nm))) := by
  refine ⟨?_, ?_, ?_, ?_⟩
  · intro fuel env ctx path covers ctx' h
    match fuel with
    | 0 => exact absurd h (by simp [executeUse])
    | fuel + 1 =>
        simp only [executeUse] at h
        split at h
        · split at h
          · exact absurd h (by simp)
          · split at h
            · split at h
              · exact absurd h (by simp)
              · split at h
                · exact absurd h (by simp)
                · injection h with h
                  subst h
                  rfl
            · split at h
              · exact absurd h (by simp)
              · injection h with h
                subst h
                rfl
        · exact absurd h (by simp)
  · intro fuel env ctx path ns nm covers tnodes hsplit hlook
    simp only [executeUse, hsplit, hlook]
    simp
  · intro fuel env ctx path ns nm dn covers tnodes x dbody hsplit hdn hlook hfind
    simp only [executeUse, hsplit, hlook]
    simp [hdn, hfind]
  · intro fuel env ctx path ns nm dn covers tnodes hsplit hdn hlook hfind
    simp only [executeUse, hsplit, hlook]
    simp [hdn, hfind]

/-- Witness for C8: a concrete use of `t.base.blk` with one cover; the
cover map active before the use (`[("old", [])]`) is restored after it,
while the cover installed for the execution fires inside. -/
theorem C8_use_cover_scoping_witness :
    executeUse 64 envUseBase ⟨[], "", [], [("old", [])]⟩ "t.base.blk"
        [("blk", [.text "B"])] =
      match executeNodes 63 envUseBase
          ⟨[], "", [], buildCovers [("blk", [.text "B"])]⟩ [.text "orig"] with
      | .error e => .error e
      | .ok mid => .ok { mid with covers := [("old", [])] } :=
  C8_use_cover_scoping.2.2.1 63 envUseBase ⟨[], "", [], [("old", [])]⟩
    "t.base.blk" "t" "base" "blk" [("blk", [.text "B"])]
    [.text "B:", .defineN "blk" [.text "orig"]] "blk" [.text "orig"]
    rfl (by decide) rfl rfl

/-- C7: when a function block's callable cannot be resolved to a
`func(*Query)`/`func(Query)`-shaped scope entry and the evaluator rejects
the injected call expression, the render does not fail: the block degrades
to appending the sub-render's own text and parameters unchanged (first
conjunct, for any environment).  This is the only execution path that
absorbs a collaborator failure: under an environment whose evaluator and
code runner always fail, every other node kind that consults them —
parameterized/raw expressions, if conditions, conditional lines, raw code,
both for forms — propagates the failure as a fatal render error (remaining
conjuncts), while a function block under that same environment still
succeeds (last conjunct). -/
theorem C7_funcBlock_fallback_only_recovery :
    (∀ (fuel : Nat) (env : Env) (ctx : Ctx) (fe : String) (body : List Node)
        (sub : Ctx) (e : String),
        executeNodes fuel env ⟨ctx.scope, "", [], ctx.covers⟩ body = .ok sub →
        directCallTag (lookupA sub.scope (trimS fe)) = false →
        env.eval (injectQueryArg (trimS fe))
          (setA sub.scope "__query__" (.vQueryRef sub.sql sub.args)) =
          .error e →
        executeFuncBlock (fuel + 1) env ctx fe body =
          .ok ⟨setA sub.scope "__query__" (.vQueryRef sub.sql sub.args),
               ctx.sql ++ sub.sql, ctx.args ++ sub.args, sub.covers⟩) ∧
    (∀ (fuel : Nat) (ctx : Ctx) (ex : String) (c : Bool),
        executeNode (fuel + 1) failEnv ctx (.varExpr ex c) =
          .error "eval failed") ∧
    (∀ (fuel : Nat) (ctx : Ctx) (ex : String) (c : Bool),
        executeNode (fuel + 1) failEnv ctx (.rawExpr ex c) =
          .error "eval failed") ∧
    (∀ (fuel : Nat) (ctx : Ctx) (cnd : String) (b : List Node)
        (ei : List (String × List Node)) (eb : Option (List Node)),
        executeNode (fuel + 2) failEnv ctx (.ifN cnd b ei eb) =
          .error ("condition error: " ++ "eval failed")) ∧
    (∀ (fuel : Nat) (ctx : Ctx) (cnd : String) (ln : List Node),
        executeNode (fuel + 2) failEnv ctx (.condLine cnd ln) =
          .error ("condition error: " ++ "eval failed")) ∧
    (∀ (fuel : Nat) (ctx : Ctx) (cd : String),
        executeNode (fuel + 1) failEnv ctx (.code cd) =
          .error "code failed") ∧
    (∀ (fuel : Nat) (ctx : Ctx) (b : List Node),
        executeNode (fuel + 3) failEnv ctx (.forN "i, v := range xs" b) =
          .error ("range expression error: " ++ "eval failed")) ∧
    (∀ (fuel : Nat) (ctx : Ctx) (b : List Node),
        executeNode (fuel + 3) failEnv ctx (.forN "i := 0; i < 3; i++" b) =
          .error ("for init error: " ++ "eval failed")) ∧
    executeFuncBlock 3 failEnv ⟨[], "", [], []⟩ "f()" [.text "T"] =
      .ok ⟨[("__query__", .vQueryRef "T" [])], "T", [], []⟩ := by
  refine ⟨?_, ?_, ?_, ?_, ?_, ?_, ?_, ?_, rfl⟩
  · intro fuel env ctx fe body sub e hsub hnot heval
    simp only [executeFuncBlock, hsub]
    cases hl : lookupA sub.scope (trimS fe) with
    | none => simp [hl, executeFuncBlockExpr, heval]
    | some v =>
        cases v with
        | vFunc fid tag =>
            rw [hl] at hnot
            simp only [directCallTag, Bool.or_eq_false_iff] at hnot
            have h1 : ¬ (tag = funcTagQueryPtr) := by
              simpa using hnot.1
            have h2 : ¬ (tag = funcTagQueryVal) := by
              simpa using hnot.2
            simp [hl, h1, h2, executeFuncBlockExpr, heval]
        | vNil => simp [hl, executeFuncBlockExpr, heval]
        | vBool b => simp [hl, executeFuncBlockExpr, heval]
        | vInt i => simp [hl, executeFuncBlockExpr, heval]
        | vStr s => simp [hl, executeFuncBlockExpr, heval]
        | vSlice xs => simp [hl, executeFuncBlockExpr, heval]
        | vNilSlice => simp [hl, executeFuncBlockExpr, heval]
        | vMap m => simp [hl, executeFuncBlockExpr, heval]
        | vPtr p => simp [hl, executeFuncBlockExpr, heval]
        | vStruct z => simp [hl, executeFuncBlockExpr, heval]
        | vQueryRef s p => simp [hl, executeFuncBlockExpr, heval]
  · intro fuel ctx ex c
    simp [executeNode, executeVarExprNode, failEnv]
  · intro fuel ctx ex c
    simp [executeNode, executeRawExprNode, failEnv]
  · intro fuel ctx cnd b ei eb
    simp [executeNode, executeIf, evalCondition, failEnv]
  · intro fuel ctx cnd ln
    simp [executeNode, executeConditionalLine, evalCondition, failEnv]
  · intro fuel ctx cd
    simp [executeNode, failEnv]
  · intro fuel ctx b
    have h1 : containsS (trimS "i, v := range xs") "range" = true := rfl
    have h2 : splitOnceSub (trimS "i, v := range xs") ":=" =
        some ("i, v ", " range xs") := rfl
    simp [executeNode, executeFor, executeForRange, h1, h2, failEnv]
  · intro fuel ctx b
    have h1 : containsS (trimS "i := 0; i < 3; i++") "range" = false := rfl
    have h2 : splitOnChar (trimS "i := 0; i < 3; i++") ';' =
        ["i := 0", " i < 3", " i++"] := rfl
    have h3 : containsS (trimS "i := 0") ":=" = true := rfl
    have h4 : splitOnceSub (trimS "i := 0") ":=" = some ("i ", " 0") := rfl
    simp [executeNode, executeFor, executeForTraditional, h1, h2, h3, h4,
      failEnv]

/-- Witness for C7: the fallback conjunct applied at a concrete failing
environment, context and body. -/
theorem C7_funcBlock_fallback_only_recovery_witness :
    executeFuncBlock 3 failEnv ⟨[("a", Value.vInt 1)], "S", [Value.vInt 9], []⟩
        "g()" [.text "T"] =
      .ok ⟨setA [("a", Value.vInt 1)] "__query__" (.vQueryRef "T" []),
           "S" ++ "T", [Value.vInt 9] ++ [], []⟩ :=
  C7_funcBlock_fallback_only_recovery.1 2 failEnv
    ⟨[("a", Value.vInt 1)], "S", [Value.vInt 9], []⟩ "g()" [.text "T"]
    ⟨[("a", Value.vInt 1)], "T", [], []⟩ "eval failed" rfl rfl rfl

end Gosql
